import Mathlib

/-
  Verification development for the cybermang action-roguelike core.

  Shallow embedding of the Python sources (map.py, player.py, enemy.py,
  status_effects.py, combat_actions.py, weapons.py, game.py) and proofs of
  the testable properties stated in the project's specification.

  Conventions used throughout the embedding:
  * Python ints are modelled as `ℤ` (or `ℕ` where the source value is
    manifestly non-negative); Python floats are modelled as `ℚ`.
    Python floor division `//` on non-negative operands is `Int./` (which
    in Mathlib is euclidean division, i.e. floor division for a positive
    divisor, exactly Python's semantics).
  * `int(damage * 0.7)` is modelled as `7 * damage / 10`.  For
    0 ≤ damage ≤ 89 this agrees exactly with CPython's binary64 product
    followed by truncation; the first divergence of the float pipeline is
    at damage = 90 (CPython computes 62 where the exact rational floor is
    63).  Theorems that depend on the exact value carry the `damage < 90`
    bound; theorems that only need `0 ≤ int(damage * 0.7)` hold for the
    float semantics as well.
  * The 2-D grid `grid[y][x]` of lists of single-character strings is
    modelled as a total function `ℤ → ℤ → Char` taking `y` first; cells
    that do not exist in the Python list-of-lists are `'#'` in the model
    (the generator starts from an all-wall grid and only ever writes
    in-bounds cells, so no in-bounds behaviour depends on this choice).
  * Randomness is modelled by explicit oracle parameters: a call site that
    draws `random.random()` takes a `ℚ` argument, `random.randint(a, b)`
    takes a `ℕ` argument `n` and uses `a + n % (b - a + 1)` (which ranges
    over exactly the support of the Python draw), and `random.shuffle` of
    the four cardinal directions takes an index into the 24 permutations
    of the direction list.  Theorems quantify over all oracle values.
  * Rendering, animation, curses calls, logging strings and wall-clock
    sleeps are display-only in the source and are omitted; the wall-clock
    fire-rate gate of weapons is kept, with the current time passed in as
    a `ℚ` parameter.
-/

namespace Cybermang

/- ### Terrain grid (map.py) -/

/-- Raw dungeon grid: `Grid y x` is the character stored at `grid[y][x]`. -/
abbrev Grid := ℤ → ℤ → Char

/-- Grid position, written `(x, y)` as in the source. -/
abbrev Pos := ℤ × ℤ

/-- The `Map` object of map.py: dimensions plus the cell grid.  Fields that
only serve rendering (light radius, animation frame, zoom factor) are
omitted. -/
structure Map where
  width : ℤ
  height : ℤ
  grid : Grid

/-- In-bounds test `0 <= x < self.width and 0 <= y < self.height`. -/
def Map.inBounds (m : Map) (x y : ℤ) : Prop :=
  0 ≤ x ∧ x < m.width ∧ 0 ≤ y ∧ y < m.height

instance (m : Map) (x y : ℤ) : Decidable (m.inBounds x y) := by
  unfold Map.inBounds; infer_instance

/-- Map.is_blocked: out of bounds is blocked; only walls block movement. -/
def Map.is_blocked (m : Map) (x y : ℤ) : Bool :=
  if ¬ m.inBounds x y then true
  else m.grid y x == '#'

/-- Map.get_terrain_effect: movement-speed multiplier of the terrain;
out of bounds returns 1.0. -/
def Map.get_terrain_effect (m : Map) (x y : ℤ) : ℚ :=
  if ¬ m.inBounds x y then 1
  else
    let terrain := m.grid y x
    if terrain = 'R' then 1/2
    else if terrain = 'W' then 3/10
    else if terrain = 'T' then 7/10
    else if terrain = 'L' then 2/5
    else if terrain = 'S' then 9/10
    else 1

/-- Map.get_terrain_damage: damage dealt by the terrain; out of bounds
returns 0. -/
def Map.get_terrain_damage (m : Map) (x y : ℤ) : ℤ :=
  if ¬ m.inBounds x y then 0
  else
    let terrain := m.grid y x
    if terrain = 'L' then 15
    else if terrain = 'S' then 8
    else 0

/-- Single-cell write `self.grid[y][x] = c` as a functional update. -/
def Map.setCell (m : Map) (x y : ℤ) (c : Char) : Map :=
  { m with grid := fun j i => if j = y ∧ i = x then c else m.grid j i }

/-- Map.collect_item: consume a pickup cell (H, A or P becomes Floor) and
return what was collected, or None. -/
def Map.collect_item (m : Map) (x y : ℤ) : Option Char × Map :=
  if ¬ m.inBounds x y then (none, m)
  else
    let item := m.grid y x
    if item = 'H' ∨ item = 'A' ∨ item = 'P' then (some item, m.setCell x y '.')
    else (none, m)

/-- Map.destroy_terrain: destroy a Trees cell (T becomes Floor) and return
what was destroyed, or None. -/
def Map.destroy_terrain (m : Map) (x y : ℤ) : Option Char × Map :=
  if ¬ m.inBounds x y then (none, m)
  else
    let terrain := m.grid y x
    if terrain = 'T' then (some 'T', m.setCell x y '.')
    else (none, m)

/- ### Status effects (status_effects.py) -/

/-- StatusEffect instance state.  `applied` is bookkeeping the source never
reads and is omitted.  Durations and intensities are Python numbers
(ints/floats) modelled as `ℚ`. -/
structure StatusEffect where
  name : String
  base_duration : ℚ
  duration : ℚ
  intensity : ℚ
  max_intensity : ℚ
  max_duration : ℚ
deriving DecidableEq

/-- StatusEffect.__init__ (name, duration, intensity). -/
def StatusEffect.make (name : String) (duration : ℚ) (intensity : ℚ) : StatusEffect :=
  { name := name
    base_duration := duration
    duration := duration
    intensity := intensity
    max_intensity := intensity * 3
    max_duration := duration * 2 }

/-- Duration-class effect names of StatusEffect.stack_effect. -/
def durationClassNames : List String :=
  ["Paralysis", "Blindness", "Confusion", "Haste", "Slow"]

/-- Intensity-class effect names of StatusEffect.stack_effect. -/
def intensityClassNames : List String :=
  ["Poison", "Regeneration", "Strength", "Weakness", "Protection"]

/-- StatusEffect.stack_effect: `self` is the freshly applied effect,
`existing` the already-active instance that is mutated; `r` is the
`random.uniform(0.5, 1.0)` draw of the branch that runs. -/
def StatusEffect.stack_effect (self : StatusEffect) (existing : StatusEffect) (r : ℚ) :
    StatusEffect :=
  if self.name ∈ durationClassNames then
    { existing with
        duration := min (existing.duration + self.base_duration * r) existing.max_duration }
  else if self.name ∈ intensityClassNames then
    { existing with
        intensity := min (existing.intensity + self.intensity * r) existing.max_intensity
        duration := max existing.duration self.base_duration }
  else existing

/- ### Player (player.py) -/

/-- Player state relevant to health/status logic.  Position, mana, weapon
loadout, the action list and the combat log are independent of the
properties proved here and are omitted. -/
structure Player where
  health : ℤ
  max_health : ℤ
  status_effects : List StatusEffect
  paralyzed : Bool
  slowed : Bool
  protectedFlag : Bool

/-- Player.__init__ with the given starting health. -/
def Player.make (health : ℤ) : Player :=
  { health := health
    max_health := health
    status_effects := []
    paralyzed := false
    slowed := false
    protectedFlag := false }

/-- Player.take_damage: apply the Protection reduction (unless ignored),
subtract, clamp at 0. -/
def Player.take_damage (p : Player) (damage : ℤ) (ignore_protection : Bool) : Player :=
  let d := if p.protectedFlag && !ignore_protection then 7 * damage / 10 else damage
  let h := p.health - d
  { p with health := if h < 0 then 0 else h }

/-- Stack a fresh effect into the first existing instance with the same
name (the loop of Player.apply_status_effect / Enemy.apply_status_effect
mutates exactly the first match). -/
def stackFirst (eff : StatusEffect) (r : ℚ) : List StatusEffect → List StatusEffect
  | [] => []
  | e :: rest =>
    if e.name = eff.name then eff.stack_effect e r :: rest
    else e :: stackFirst eff r rest

/-- Effect-class `apply_effect` hooks that set the mirror flags on the
entity when an effect is first added (ParalysisEffect, SlowEffect,
ProtectionEffect; the other flags are not read by the operations modelled
here and poison/regeneration have no apply hook). -/
def Player.applyEffectFlags (p : Player) (name : String) : Player :=
  if name = "Paralysis" then { p with paralyzed := true }
  else if name = "Slow" then { p with slowed := true }
  else if name = "Protection" then { p with protectedFlag := true }
  else p

/-- Player.apply_status_effect: stack into an existing same-named instance,
otherwise append the new effect and run its apply hook. -/
def Player.apply_status_effect (p : Player) (eff : StatusEffect) (r : ℚ) : Player :=
  if p.status_effects.any (fun e => e.name = eff.name) then
    { p with status_effects := stackFirst eff r p.status_effects }
  else
    Player.applyEffectFlags
      { p with status_effects := p.status_effects ++ [eff] } eff.name

/-- Health gain from an 'H' pickup in Player.move:
`self.health = min(self.max_health, self.health + 20)`. -/
def Player.healthPickup (p : Player) : Player :=
  { p with health := min p.max_health (p.health + 20) }

/-- Health gain from a 'P' power-up in Player.move:
`self.health = min(self.max_health, self.health + 10)`. -/
def Player.powerUpPickup (p : Player) : Player :=
  { p with health := min p.max_health (p.health + 10) }

/-- UseItemAction("health_potion") from combat_actions.py:
`entity.health = min(entity.max_health, entity.health + 30)`. -/
def Player.healthPotion (p : Player) : Player :=
  { p with health := min p.max_health (p.health + 30) }

/-- CastSpellAction("heal") from combat_actions.py applied to self:
`entity.health = min(entity.max_health, entity.health + 30)`. -/
def Player.healSpell (p : Player) : Player :=
  { p with health := min p.max_health (p.health + 30) }

/-- RegenerationEffect.on_turn_start with intensity `i`:
heal `int(3 * i)` capped at max_health (the Player has a `max_health`
attribute, so `getattr` finds it). -/
def Player.regenTick (p : Player) (i : ℚ) : Player :=
  { p with health := min p.max_health (p.health + Int.floor (3 * i)) }

/-- PoisonEffect.on_turn_start with intensity `i`: take `int(5 * i)` damage
ignoring protection. -/
def Player.poisonTick (p : Player) (i : ℚ) : Player :=
  p.take_damage (Int.floor (5 * i)) true

/-- One health-touching operation on the Player, covering every site in
the source that writes Player.health. -/
inductive PlayerHealthOp where
  | takeDamage (damage : ℕ) (ignore_protection : Bool)
  | healthPickup
  | powerUpPickup
  | healthPotion
  | healSpell
  | regenTick (i : ℚ)
  | poisonTick (i : ℚ)

/-- Run one health-touching operation. -/
def Player.runOp (p : Player) : PlayerHealthOp → Player
  | .takeDamage d ig => p.take_damage (d : ℤ) ig
  | .healthPickup => p.healthPickup
  | .powerUpPickup => p.powerUpPickup
  | .healthPotion => p.healthPotion
  | .healSpell => p.healSpell
  | .regenTick i => p.regenTick i
  | .poisonTick i => p.poisonTick i

/-- Run a sequence of health-touching operations left to right. -/
def Player.runOps (p : Player) (ops : List PlayerHealthOp) : Player :=
  ops.foldl Player.runOp p

/- ### Enemy (enemy.py) -/

/-- Movement strategy tag of an enemy. -/
inductive Strategy where
  | direct
  | flanking
  | circling
deriving DecidableEq

/-- Enemy state relevant to the modelled operations.  The combat log and
action list are omitted. -/
structure Enemy where
  x : ℤ
  y : ℤ
  health : ℤ
  move_cooldown : ℤ
  strategy : Strategy
  status_effects : List StatusEffect
  paralyzed : Bool
  slowed : Bool
  protectedFlag : Bool

/-- Enemy.__init__ at a position with the given health (strategy is a
random choice at spawn; it is passed in here). -/
def Enemy.make (x y health : ℤ) (strategy : Strategy) : Enemy :=
  { x := x
    y := y
    health := health
    move_cooldown := 0
    strategy := strategy
    status_effects := []
    paralyzed := false
    slowed := false
    protectedFlag := false }

/-- Enemy.take_damage: apply the Protection reduction (unless ignored) and
subtract.  Unlike Player.take_damage there is no clamp at 0. -/
def Enemy.take_damage (e : Enemy) (damage : ℤ) (ignore_protection : Bool) : Enemy :=
  let d := if e.protectedFlag && !ignore_protection then 7 * damage / 10 else damage
  { e with health := e.health - d }

/-- Enemy.can_act: paralysis blocks the turn; slow skips it when the
`random.random()` draw is below 0.5. -/
def Enemy.can_act (e : Enemy) (slowDraw : ℚ) : Bool :=
  if e.paralyzed then false
  else if e.slowed ∧ slowDraw < 1/2 then false
  else true

/-- Enemy._would_collide_with_enemy: the caller passes the list of enemies
other than `self` (the source filters with `enemy is not self`). -/
def wouldCollide (others : List Enemy) (x y : ℤ) : Bool :=
  others.any (fun e => e.x = x ∧ e.y = y)

/-- Apply terrain entry damage, then move to the new cell (the shared body
of every accepted step in the movement code). -/
def Enemy.stepTo (e : Enemy) (m : Map) (nx ny : ℤ) : Enemy :=
  let td := m.get_terrain_damage nx ny
  let e' := if td > 0 then e.take_damage td false else e
  { e' with x := nx, y := ny }

/-- Enemy._direct_move: step along the axis with the larger |delta| first,
falling back to the other axis. -/
def Enemy.direct_move (e : Enemy) (dx dy : ℤ) (m : Map) (px py : ℤ)
    (others : List Enemy) : Enemy :=
  if |dx| > |dy| then
    let nx := e.x + (if dx > 0 then 1 else -1)
    if ¬ (m.is_blocked nx e.y) ∧ ¬ (nx = px ∧ e.y = py) ∧ ¬ wouldCollide others nx e.y then
      e.stepTo m nx e.y
    else
      let ny := e.y + (if dy > 0 then 1 else -1)
      if ¬ (m.is_blocked e.x ny) ∧ ¬ (e.x = px ∧ ny = py) ∧ ¬ wouldCollide others e.x ny then
        e.stepTo m e.x ny
      else e
  else
    let ny := e.y + (if dy > 0 then 1 else -1)
    if ¬ (m.is_blocked e.x ny) ∧ ¬ (e.x = px ∧ ny = py) ∧ ¬ wouldCollide others e.x ny then
      e.stepTo m e.x ny
    else
      let nx := e.x + (if dx > 0 then 1 else -1)
      if ¬ (m.is_blocked nx e.y) ∧ ¬ (nx = px ∧ e.y = py) ∧ ¬ wouldCollide others nx e.y then
        e.stepTo m nx e.y
      else e

/-- Enemy._flanking_move: move perpendicular to the dominant axis with a
random sign (`flankDraw` is the `random.random()` draw), falling back to
direct movement. -/
def Enemy.flanking_move (e : Enemy) (dx dy : ℤ) (m : Map) (px py : ℤ)
    (others : List Enemy) (flankDraw : ℚ) : Enemy :=
  if |dx| > |dy| then
    let ny := e.y + (if flankDraw > 1/2 then 1 else -1)
    if ¬ (m.is_blocked e.x ny) ∧ ¬ (e.x = px ∧ ny = py) ∧ ¬ wouldCollide others e.x ny then
      e.stepTo m e.x ny
    else e.direct_move dx dy m px py others
  else
    let nx := e.x + (if flankDraw > 1/2 then 1 else -1)
    if ¬ (m.is_blocked nx e.y) ∧ ¬ (nx = px ∧ e.y = py) ∧ ¬ wouldCollide others nx e.y then
      e.stepTo m nx e.y
    else e.direct_move dx dy m px py others

/-- Enemy._circling_move: step along the non-dominant axis in a rotational
direction fixed by the parity of x + y, falling back to direct movement. -/
def Enemy.circling_move (e : Enemy) (dx dy : ℤ) (m : Map) (px py : ℤ)
    (others : List Enemy) : Enemy :=
  let circleDir : ℤ := if (e.x + e.y) % 2 = 0 then 1 else -1
  if |dx| > |dy| then
    let ny := e.y + circleDir
    if ¬ (m.is_blocked e.x ny) ∧ ¬ (e.x = px ∧ ny = py) ∧ ¬ wouldCollide others e.x ny then
      e.stepTo m e.x ny
    else e.direct_move dx dy m px py others
  else
    let nx := e.x + circleDir
    if ¬ (m.is_blocked nx e.y) ∧ ¬ (nx = px ∧ e.y = py) ∧ ¬ wouldCollide others nx e.y then
      e.stepTo m nx e.y
    else e.direct_move dx dy m px py others

/-- Random draws consumed by one call to the base Enemy.move_towards. -/
structure MoveRand where
  slowDraw : ℚ
  flankDraw : ℚ
  rerollDraw : ℚ
  rerollChoice : Fin 3
  cooldownRoll : ℕ

/-- Decode the `random.choice(['direct', 'flanking', 'circling'])` draw. -/
def strategyChoice : Fin 3 → Strategy
  | 0 => .direct
  | 1 => .flanking
  | 2 => .circling

/-- Base Enemy.move_towards: status gate, cooldown gate, strategy-dispatched
step, 5% strategy re-roll, then `move_cooldown = random.randint(0, 2)`
(modelled as `cooldownRoll % 3`, which ranges over exactly {0, 1, 2}). -/
def Enemy.move_towards (e : Enemy) (tx ty : ℤ) (m : Map) (px py : ℤ)
    (others : List Enemy) (R : MoveRand) : Enemy :=
  if ¬ e.can_act R.slowDraw then e
  else if e.move_cooldown > 0 then { e with move_cooldown := e.move_cooldown - 1 }
  else
    let dx := tx - e.x
    let dy := ty - e.y
    let e1 :=
      match e.strategy with
      | .direct => e.direct_move dx dy m px py others
      | .flanking => e.flanking_move dx dy m px py others R.flankDraw
      | .circling => e.circling_move dx dy m px py others
    let e2 :=
      if R.rerollDraw < 1/20 then { e1 with strategy := strategyChoice R.rerollChoice }
      else e1
    { e2 with move_cooldown := ((R.cooldownRoll % 3 : ℕ) : ℤ) }

/-- FastEnemy.speed (turns per move). -/
def FastEnemy.speed : ℤ := 2

/-- FastEnemy.move_towards: status gate, cooldown gate, always direct
movement, then `move_cooldown = self.speed - 1`. -/
def FastEnemy.move_towards (e : Enemy) (tx ty : ℤ) (m : Map) (px py : ℤ)
    (others : List Enemy) (slowDraw : ℚ) : Enemy :=
  if ¬ e.can_act slowDraw then e
  else if e.move_cooldown > 0 then { e with move_cooldown := e.move_cooldown - 1 }
  else
    let e1 := e.direct_move (tx - e.x) (ty - e.y) m px py others
    { e1 with move_cooldown := FastEnemy.speed - 1 }

/- ### Combat mode state machine (game.py) -/

/-- The slice of the Game object that check_combat_end reads and writes.
Turn-order bookkeeping and logs cleared by exit_combat are omitted. -/
structure Game where
  combat_mode : Bool
  player : Player
  enemies : List Enemy

/-- Game.exit_combat (the fields it clears beyond combat_mode are
bookkeeping not modelled here). -/
def Game.exit_combat (g : Game) : Game :=
  { g with combat_mode := false }

/-- Game.check_combat_end: combat ends when the enemy roster is empty or
the player is defeated.  Nothing removes defeated enemies from the roster
before this check while in combat mode. -/
def Game.check_combat_end (g : Game) : Game :=
  if g.enemies.isEmpty then g.exit_combat
  else if g.player.health ≤ 0 then g.exit_combat
  else g

/- ### Weapons (weapons.py) -/

/-- Weapon state: damage, range, ammo economy, wall-clock rate limiting. -/
structure Weapon where
  damage : ℤ
  range : ℤ
  ammo_capacity : ℤ
  ammo : ℤ
  fire_rate : ℚ
  last_shot_time : ℚ

/-- Weapon.can_shoot: ammo available and the fire-rate interval elapsed
(`now` is the `time.time()` reading). -/
def Weapon.can_shoot (w : Weapon) (now : ℚ) : Bool :=
  w.ammo > 0 ∧ now - w.last_shot_time ≥ 1 / w.fire_rate

/-- LaserPistol.__init__: damage 20, range 10, 30 ammo, 2 shots/sec. -/
def LaserPistol.make : Weapon :=
  { damage := 20, range := 10, ammo_capacity := 30, ammo := 30
    fire_rate := 2, last_shot_time := 0 }

/-- RailGun.__init__: damage 45, range 12, 8 shots, fire_rate 3. -/
def RailGun.make : Weapon :=
  { damage := 45, range := 12, ammo_capacity := 8, ammo := 8
    fire_rate := 3, last_shot_time := 0 }

/-- GrenadeLauncher.__init__: damage 25, range 8, 12 grenades, 1 shot/sec. -/
def GrenadeLauncher.make : Weapon :=
  { damage := 25, range := 8, ammo_capacity := 12, ammo := 12
    fire_rate := 1, last_shot_time := 0 }

/-- The 8-direction vector table of LaserPistol.shoot.  An unknown key
defaults to 'right'. -/
def dirVector8 (direction : String) : ℤ × ℤ :=
  if direction = "up" then (0, -1)
  else if direction = "down" then (0, 1)
  else if direction = "left" then (-1, 0)
  else if direction = "right" then (1, 0)
  else if direction = "up_left" then (-1, -1)
  else if direction = "up_right" then (1, -1)
  else if direction = "down_left" then (-1, 1)
  else if direction = "down_right" then (1, 1)
  else (1, 0)

/-- The 4-direction vector table of RailGun.shoot / GrenadeLauncher.shoot.
An unknown key defaults to 'right'. -/
def dirVector4 (direction : String) : ℤ × ℤ :=
  if direction = "up" then (0, -1)
  else if direction = "down" then (0, 1)
  else if direction = "left" then (-1, 0)
  else if direction = "right" then (1, 0)
  else (1, 0)

/-- Damage the first enemy in list order standing at the target cell
(the inner loop of LaserPistol.shoot, which breaks at the first hit);
returns the updated list and whether an enemy was hit. -/
def damageFirstAt (tx ty dmg : ℤ) : List Enemy → List Enemy × Bool
  | [] => ([], false)
  | e :: rest =>
    if e.x = tx ∧ e.y = ty then (e.take_damage dmg false :: rest, true)
    else
      let (rest', hit) := damageFirstAt tx ty dmg rest
      (e :: rest', hit)

/-- Damage every enemy standing at the target cell (the inner loop of
RailGun.shoot, which does not break); returns the updated list and the
number of hits recorded. -/
def damageAllAt (tx ty dmg : ℤ) : List Enemy → List Enemy × ℕ
  | [] => ([], 0)
  | e :: rest =>
    let (rest', n) := damageAllAt tx ty dmg rest
    if e.x = tx ∧ e.y = ty then (e.take_damage dmg false :: rest', n + 1)
    else (e :: rest', n)

/-- State threaded through a beam trace: the enemy list, the list of
trees scheduled for destruction, the traced cell list (animation cue) and
whether any enemy was hit. -/
structure BeamState where
  enemies : List Enemy
  hit_trees : List Pos
  beam_positions : List Pos
  hits : ℕ

/-- The beam loop of LaserPistol.shoot: step cells `i, i+1, ...` (with
`steps` iterations remaining out of `range`), stopping at bounds, walls,
or the first enemy hit. -/
def pistolBeam (m : Map) (x y dx dy dmg : ℤ) : ℕ → ℤ → BeamState → BeamState
  | 0, _, st => st
  | steps + 1, i, st =>
    let tx := x + dx * i
    let ty := y + dy * i
    if ¬ m.inBounds tx ty then st
    else if m.grid ty tx = '#' then st
    else
      let st := { st with beam_positions := st.beam_positions ++ [(tx, ty)] }
      let st :=
        if m.grid ty tx = 'T' then { st with hit_trees := st.hit_trees ++ [(tx, ty)] }
        else st
      let (enemies', hit) := damageFirstAt tx ty dmg st.enemies
      let st := { st with enemies := enemies', hits := if hit then st.hits + 1 else st.hits }
      if hit then st
      else pistolBeam m x y dx dy dmg steps (i + 1) st

/-- The beam loop of RailGun.shoot: like the pistol beam but piercing
(never stops at enemies). -/
def railBeam (m : Map) (x y dx dy dmg : ℤ) : ℕ → ℤ → BeamState → BeamState
  | 0, _, st => st
  | steps + 1, i, st =>
    let tx := x + dx * i
    let ty := y + dy * i
    if ¬ m.inBounds tx ty then st
    else if m.grid ty tx = '#' then st
    else
      let st := { st with beam_positions := st.beam_positions ++ [(tx, ty)] }
      let st :=
        if m.grid ty tx = 'T' then { st with hit_trees := st.hit_trees ++ [(tx, ty)] }
        else st
      let (enemies', n) := damageAllAt tx ty dmg st.enemies
      let st := { st with enemies := enemies', hits := st.hits + n }
      railBeam m x y dx dy dmg steps (i + 1) st

/-- Destroy every tree recorded during a trajectory (the post-loop pass
`for tree_x, tree_y in hit_trees: game_map.destroy_terrain(...)`). -/
def destroyTrees (m : Map) (trees : List Pos) : Map :=
  trees.foldl (fun mm t => (mm.destroy_terrain t.1 t.2).2) m

/-- Result of a shot: updated weapon, enemy list and map, plus the boolean
the source returns. -/
structure ShotResult where
  weapon : Weapon
  enemies : List Enemy
  map : Map
  fired : Bool

/-- LaserPistol.shoot. -/
def LaserPistol.shoot (w : Weapon) (now : ℚ) (x y : ℤ) (direction : String)
    (m : Map) (enemies : List Enemy) : ShotResult :=
  if ¬ w.can_shoot now then { weapon := w, enemies := enemies, map := m, fired := false }
  else
    let w' := { w with last_shot_time := now, ammo := w.ammo - 1 }
    let (dx, dy) := dirVector8 direction
    let st := pistolBeam m x y dx dy w.damage w.range.toNat 1
      { enemies := enemies, hit_trees := [], beam_positions := [], hits := 0 }
    let m' := destroyTrees m st.hit_trees
    { weapon := w', enemies := st.enemies, map := m'
      fired := st.hits > 0 ∨ st.beam_positions.length > 0 ∨ st.hit_trees.length > 0 }

/-- RailGun.shoot. -/
def RailGun.shoot (w : Weapon) (now : ℚ) (x y : ℤ) (direction : String)
    (m : Map) (enemies : List Enemy) : ShotResult :=
  if ¬ w.can_shoot now then { weapon := w, enemies := enemies, map := m, fired := false }
  else
    let w' := { w with last_shot_time := now, ammo := w.ammo - 1 }
    let (dx, dy) := dirVector4 direction
    let st := railBeam m x y dx dy w.damage w.range.toNat 1
      { enemies := enemies, hit_trees := [], beam_positions := [], hits := 0 }
    let m' := destroyTrees m st.hit_trees
    { weapon := w', enemies := st.enemies, map := m'
      fired := st.hits > 0 ∨ st.beam_positions.length > 0 ∨ st.hit_trees.length > 0 }

/-- Damage pass of one explosion subcell of GrenadeLauncher.shoot: every
enemy at the cell whose index is not yet in `hit` is damaged once and
recorded (`enemy not in hit_enemies` is an identity test in the source,
modelled by list indices).  `idx` is the index of the first enemy in the
remaining list. -/
def grenadeDamageAt (tx ty dmg : ℤ) : List Enemy → ℕ → List ℕ → List Enemy × List ℕ
  | [], _, hit => ([], hit)
  | e :: rest, idx, hit =>
    if e.x = tx ∧ e.y = ty ∧ idx ∉ hit then
      let (rest', hit') := grenadeDamageAt tx ty dmg rest (idx + 1) (hit ++ [idx])
      (e.take_damage dmg false :: rest', hit')
    else
      let (rest', hit') := grenadeDamageAt tx ty dmg rest (idx + 1) hit
      (e :: rest', hit')

/-- Explosion state for a grenade shot. -/
structure BlastState where
  enemies : List Enemy
  hit : List ℕ
  hit_trees : List Pos
  cells : List Pos

/-- Process one explosion subcell at offset `(ex, ey)` from the impact
point. -/
def grenadeCell (m : Map) (ix iy dmg : ℤ) (st : BlastState) (off : ℤ × ℤ) : BlastState :=
  let tx := ix + off.1
  let ty := iy + off.2
  if m.inBounds tx ty ∧ m.grid ty tx ≠ '#' then
    let st := { st with cells := st.cells ++ [(tx, ty)] }
    let st :=
      if m.grid ty tx = 'T' then { st with hit_trees := st.hit_trees ++ [(tx, ty)] }
      else st
    let cellDmg := if off.1 = 0 ∧ off.2 = 0 then dmg else dmg / 2
    let (enemies', hit') := grenadeDamageAt tx ty cellDmg st.enemies 0 st.hit
    { st with enemies := enemies', hit := hit' }
  else st

/-- The `for ex in range(-1, 2): for ey in range(-1, 2)` iteration order. -/
def blastOffsets : List (ℤ × ℤ) :=
  [(-1, -1), (-1, 0), (-1, 1), (0, -1), (0, 0), (0, 1), (1, -1), (1, 0), (1, 1)]

/-- GrenadeLauncher.shoot: impact at 2/3 of max range along the direction,
clamped to the grid, then a 3×3 blast (full damage at the centre, half
damage — integer floor division — on the ring, each enemy hit at most
once). -/
def GrenadeLauncher.shoot (w : Weapon) (now : ℚ) (x y : ℤ) (direction : String)
    (m : Map) (enemies : List Enemy) : ShotResult :=
  if ¬ w.can_shoot now then { weapon := w, enemies := enemies, map := m, fired := false }
  else
    let w' := { w with last_shot_time := now, ammo := w.ammo - 1 }
    let (dx, dy) := dirVector4 direction
    let impact_distance := w.range * 2 / 3
    let ix := max 0 (min (x + dx * impact_distance) (m.width - 1))
    let iy := max 0 (min (y + dy * impact_distance) (m.height - 1))
    let st := blastOffsets.foldl (grenadeCell m ix iy w.damage)
      { enemies := enemies, hit := [], hit_trees := [], cells := [] }
    let m' := destroyTrees m st.hit_trees
    { weapon := w', enemies := st.enemies, map := m'
      fired := st.hit.length > 0 ∨ st.cells.length > 0 ∨ st.hit_trees.length > 0 }

/- ### Dungeon generation (map.py, generate_maze / generate_rooms) -/

/-- Single raw-grid write `grid[p.2][p.1] = c`. -/
def writeCell (g : Grid) (p : Pos) (c : Char) : Grid :=
  fun j i => if j = p.2 ∧ i = p.1 then c else g j i

/-- The inner-cell guard `0 < x < width - 1 and 0 < y < height - 1` used
by every carving write of the generator. -/
def interiorGuard (w h : ℤ) (p : Pos) : Prop :=
  0 < p.1 ∧ p.1 < w - 1 ∧ 0 < p.2 ∧ p.2 < h - 1

instance (w h : ℤ) (p : Pos) : Decidable (interiorGuard w h p) := by
  unfold interiorGuard; infer_instance

/-- Guarded carve: write Floor only when the cell passes the inner-cell
guard. -/
def carveIfInterior (w h : ℤ) (g : Grid) (p : Pos) : Grid :=
  if interiorGuard w h p then writeCell g p '.' else g

/-- The direction list `[(0, 1), (1, 0), (0, -1), (-1, 0)]` of map.py. -/
def mazeDirs : List (ℤ × ℤ) := [(0, 1), (1, 0), (0, -1), (-1, 0)]

/-- One step of the `while` walk of create_main_path: move the coordinate
with the larger absolute difference one cell towards the target, then
carve the new cell if it passes the inner-cell guard.  The fuel equals
the Manhattan distance at the call site, which is exactly the number of
iterations the source loop performs. -/
def mainWalk (w h : ℤ) : ℕ → Grid → Pos → Pos → Grid
  | 0, g, _, _ => g
  | fuel + 1, g, c, t =>
    if c = t then g
    else
      let c' :=
        if (t.1 - c.1).natAbs > (t.2 - c.2).natAbs then
          (if t.1 > c.1 then (c.1 + 1, c.2) else (c.1 - 1, c.2))
        else
          (if t.2 > c.2 then (c.1, c.2 + 1) else (c.1, c.2 - 1))
      mainWalk w h fuel (carveIfInterior w h g c') c' t

/-- The four corner targets of create_main_path. -/
def mazeCorners (w h : ℤ) : List Pos :=
  [(5, 5), (w - 6, 5), (5, h - 6), (w - 6, h - 6)]

/-- create_main_path: carve the centre cell unconditionally, then walk
from the centre to each of the four corner targets. -/
def createMainPath (w h : ℤ) (g : Grid) : Grid :=
  let c : Pos := (w / 2, h / 2)
  let g1 := writeCell g c '.'
  (mazeCorners w h).foldl
    (fun g t => mainWalk w h ((t.1 - c.1).natAbs + (t.2 - c.2).natAbs) g c t) g1

/-- The seven writes carve_passages performs for one accepted direction
`(dx, dy)` from `(x, y)`: the three cells along the direction plus the
four widening writes (`abs(dx) > 0` selects the horizontal variant). -/
def carveWide (g : Grid) (x y dx dy : ℤ) : Grid :=
  let g1 := writeCell g (x + dx, y + dy) '.'
  let g2 := writeCell g1 (x + dx * 2, y + dy * 2) '.'
  let g3 := writeCell g2 (x + dx * 3, y + dy * 3) '.'
  if dx ≠ 0 then
    let g4 := writeCell g3 (x + dx - 1, y + dy) '.'
    let g5 := writeCell g4 (x + dx + 1, y + dy) '.'
    let g6 := writeCell g5 (x + dx * 2 - 1, y + dy * 2) '.'
    writeCell g6 (x + dx * 2 + 1, y + dy * 2) '.'
  else
    let g4 := writeCell g3 (x + dx, y + dy - 1) '.'
    let g5 := writeCell g4 (x + dx, y + dy + 1) '.'
    let g6 := writeCell g5 (x + dx * 2, y + dy * 2 - 1) '.'
    writeCell g6 (x + dx * 2, y + dy * 2 + 1) '.'

/-- carve_passages.  The recursion depth of the source is unbounded, so
the embedding carries a fuel parameter and the connectivity theorem
quantifies over all fuels; `shuffle` is the oracle giving the result of
`random.shuffle(directions)` at the k-th shuffle call, and the state
carries the grid together with the shuffle-call counter.  The body folds
the shuffled direction list exactly as the source for-loop does: an
accepted direction performs the seven widening writes and recurses from
the new cell before the loop continues. -/
def carvePassages (w h : ℤ) (shuffle : ℕ → List (ℤ × ℤ)) :
    ℕ → ℤ → ℤ → Grid × ℕ → Grid × ℕ
  | 0, _, _, s => s
  | fuel + 1, x, y, (g, k) =>
    (shuffle k).foldl
      (fun s d =>
        let nx := x + d.1 * 3
        let ny := y + d.2 * 3
        if interiorGuard w h (nx, ny) ∧ s.1 ny nx = '#' then
          carvePassages w h shuffle fuel nx ny (carveWide s.1 x y d.1 d.2, s.2)
        else s)
      (g, k + 1)

/-- The five carving start points of generate_maze. -/
def startPoints (w h : ℤ) : List Pos :=
  [(w / 2, h / 2), (w / 3, h / 3), (2 * w / 3, h / 3),
    (w / 3, 2 * h / 3), (2 * w / 3, 2 * h / 3)]

/-- The start-point loop: a start that is still a wall is carved open and
carve_passages is run from it. -/
def carveFromStarts (w h : ℤ) (shuffle : ℕ → List (ℤ × ℤ)) (fuel : ℕ) :
    List Pos → Grid × ℕ → Grid × ℕ
  | [], s => s
  | p :: rest, (g, k) =>
    if g p.2 p.1 = '#' then
      carveFromStarts w h shuffle fuel rest
        (carvePassages w h shuffle fuel p.1 p.2 (writeCell g p '.', k))
    else carveFromStarts w h shuffle fuel rest (g, k)

/-- collect_area of flood_fill_connect: depth-first collection of the
connected open component of the seed, accumulated in source discovery
order (the membership test on entry keeps the list duplicate-free, so the
list faithfully models the Python set).  The recursion depth of the
source is unbounded; the embedding carries fuel and the theorems hold for
every fuel. -/
def collectArea (g : Grid) (w h : ℤ) : ℕ → List Pos → Pos → List Pos
  | 0, area, _ => area
  | fuel + 1, area, p =>
    if p ∈ area ∨ ¬ (0 ≤ p.1 ∧ p.1 < w ∧ 0 ≤ p.2 ∧ p.2 < h) then area
    else if g p.2 p.1 = '#' then area
    else
      mazeDirs.foldl (fun a d => collectArea g w h fuel a (p.1 + d.1, p.2 + d.2))
        (area ++ [p])

/-- The interior scan order of flood_fill_connect:
`for y in range(1, height - 1): for x in range(1, width - 1)`. -/
def interiorCells (w h : ℤ) : List Pos :=
  (List.range (h - 2).toNat).flatMap fun (j : ℕ) =>
    (List.range (w - 2).toNat).map fun (i : ℕ) => ((i : ℤ) + 1, (j : ℤ) + 1)

/-- The area-discovery scan of flood_fill_connect: every unvisited open
interior cell seeds a collect_area call; nonempty areas are appended to
the area list and merged into visited. -/
def scanAreas (g : Grid) (w h : ℤ) (fuel : ℕ) :
    List Pos → List Pos → List (List Pos) → List (List Pos) × List Pos
  | [], visited, acc => (acc, visited)
  | p :: rest, visited, acc =>
    if g p.2 p.1 ≠ '#' ∧ p ∉ visited then
      scanAreas g w h fuel rest (visited ++ collectArea g w h fuel [] p)
        (acc ++ if (collectArea g w h fuel [] p).isEmpty then []
          else [collectArea g w h fuel [] p])
    else scanAreas g w h fuel rest visited acc

/-- Manhattan distance used to pick the closest pair of area points. -/
def manhattan (p q : Pos) : ℤ := |p.1 - q.1| + |p.2 - q.2|

/-- One comparison of the closest-pair search: keep the incumbent unless
the candidate pair is strictly closer (None is the infinity start). -/
def betterPair (best : Option (Pos × Pos)) (pq : Pos × Pos) : Option (Pos × Pos) :=
  match best with
  | none => some pq
  | some b0 =>
    if manhattan pq.1 pq.2 < manhattan b0.1 b0.2 then some pq else some b0

/-- The closest-pair search of the repair pass: iterate all pairs of the
two areas keeping the first strictly-smaller distance, starting from the
None / infinity initialisation of the source. -/
def closestPair (A B : List Pos) : Option (Pos × Pos) :=
  (A.flatMap fun a => B.map fun b => (a, b)).foldl betterPair none

/-- One move of the corridor walk of the repair pass: step x towards the
target first, then y. -/
def walkNext (c t : Pos) : Pos :=
  if c.1 < t.1 then (c.1 + 1, c.2)
  else if c.1 > t.1 then (c.1 - 1, c.2)
  else if c.2 < t.2 then (c.1, c.2 + 1)
  else (c.1, c.2 - 1)

/-- The corridor walk of the repair pass: move with `walkNext`, carving
each visited cell that passes the inner-cell guard.  Fuel is the
Manhattan distance at the call site, exactly the number of loop
iterations of the source. -/
def connectWalk (w h : ℤ) : ℕ → Grid → Pos → Pos → Grid
  | 0, g, _, _ => g
  | fuel + 1, g, c, t =>
    if c = t then g
    else connectWalk w h fuel (carveIfInterior w h g (walkNext c t)) (walkNext c t) t

/-- The `for i in range(len(open_areas) - 1)` loop of the repair pass:
carve a corridor between the closest points of each consecutive pair of
areas (zero or one areas mean nothing to do, as under the source guard
`len(open_areas) > 1`). -/
def connectAreas (w h : ℤ) : Grid → List (List Pos) → Grid
  | g, A :: B :: rest =>
    connectAreas w h
      (match closestPair A B with
        | none => g
        | some (p1, p2) =>
          connectWalk w h ((p2.1 - p1.1).natAbs + (p2.2 - p1.2).natAbs) g p1 p2)
      (B :: rest)
  | g, _ => g

/-- flood_fill_connect: discover the open areas of the carved grid, then
connect consecutive areas.  (The `visited` set and nested `visit`
function defined at the top of the source function are dead code: `visit`
is never called, and the scan keeps its own visited set.) -/
def floodFillConnect (w h : ℤ) (fuel : ℕ) (g : Grid) : Grid :=
  connectAreas w h g (scanAreas g w h fuel (interiorCells w h) [] []).1

/-- The terrain-variation table: thresholds of the `rand_val` cascade.  A
draw at or above 1 (impossible for `random.random()`) leaves Floor, like
the fall-through of the source cascade. -/
def terrainChar (q : ℚ) : Char :=
  if q < 8/100 then 'W'
  else if q < 23/100 then 'T'
  else if q < 48/100 then 'R'
  else if q < 83/100 then 'H'
  else if q < 95/100 then 'A'
  else if q < 98/100 then 'P'
  else if q < 99/100 then 'L'
  else if q < 1 then 'S'
  else '.'

/-- The terrain-variation pass shared by both generator modes: every
in-bounds Floor cell is rewritten through the threshold cascade on a
fresh `random.random()` draw.  The draws are independent per cell, so the
oracle is indexed by the cell coordinates. -/
def applyTerrain (w h : ℤ) (r : ℤ → ℤ → ℚ) (g : Grid) : Grid :=
  fun j i =>
    if 0 ≤ j ∧ j < h ∧ 0 ≤ i ∧ i < w ∧ g j i = '.' then terrainChar (r i j)
    else g j i

/-- A room `[(x1, y1), (x2, y2)]`. -/
abbrev Room := Pos × Pos

/-- Map.room_overlap. -/
def room_overlap (r1 r2 : Room) : Bool :=
  decide (¬ (r1.2.1 ≤ r2.1.1 ∨ r2.2.1 ≤ r1.1.1 ∨ r1.2.2 ≤ r2.1.2 ∨ r2.2.2 ≤ r1.1.2))

/-- Map.create_room as a pointwise grid function.  The source runs three
write loops in order — floor over the whole footprint, then the two wall
rows y1 and y2-1 (guarded on y1 alone), then the two wall columns x1 and
x2-1 (guarded on x1 alone) — so the later loops win, which the
if-cascade encodes with the column walls at the top. -/
def create_room (w h : ℤ) (g : Grid) (room : Room) : Grid :=
  fun j i =>
    if 0 < room.1.1 ∧ room.1.1 < w - 1 ∧ (i = room.1.1 ∨ i = room.2.1 - 1) ∧
        room.1.2 ≤ j ∧ j < room.2.2 then '#'
    else if 0 < room.1.2 ∧ room.1.2 < h - 1 ∧ (j = room.1.2 ∨ j = room.2.2 - 1) ∧
        room.1.1 ≤ i ∧ i < room.2.1 then '#'
    else if room.1.1 ≤ i ∧ i < room.2.1 ∧ room.1.2 ≤ j ∧ j < room.2.2 ∧
        0 < i ∧ i < w - 1 ∧ 0 < j ∧ j < h - 1 then '.'
    else g j i

/-- Map.connect_rooms as a pointwise grid function: an L-corridor of
Floor cells along the row of the first centre and the column of the
second centre, each cell subject to the source bound guards.  Both the
horizontal and the vertical loops only ever write Floor, so their order
does not matter pointwise. -/
def connect_rooms (w h : ℤ) (g : Grid) (r1 r2 : Room) : Grid :=
  let cx1 := (r1.1.1 + r1.2.1) / 2
  let cy1 := (r1.1.2 + r1.2.2) / 2
  let cx2 := (r2.1.1 + r2.2.1) / 2
  let cy2 := (r2.1.2 + r2.2.2) / 2
  fun j i =>
    if 0 < cx2 ∧ cx2 < w - 1 ∧ i = cx2 ∧ min cy1 cy2 ≤ j ∧ j ≤ max cy1 cy2 ∧
        0 < j ∧ j < h - 1 then '.'
    else if 0 < i ∧ i < w - 1 ∧ 0 < cy1 ∧ cy1 < h - 1 ∧ j = cy1 ∧
        min cx1 cx2 ≤ i ∧ i ≤ max cx1 cx2 then '.'
    else g j i

/-- The `for i in range(len(rooms) - 1): connect_rooms` loop. -/
def connectRoomsChain (w h : ℤ) : Grid → List Room → Grid
  | g, r1 :: r2 :: rest => connectRoomsChain w h (connect_rooms w h g r1 r2) (r2 :: rest)
  | g, _ => g

/-- The room-placement loop of generate_rooms.  `rand` is the randint
oracle (`randint(a, b)` is modelled as `a + rand k % (b - a + 1)`), `k`
the draw counter, and the structural fuel is called with 100 so that it
can never run out before `attempts < 100` fails. -/
def placeRooms (w h : ℤ) (rand : ℕ → ℕ) : ℕ → ℕ → ℕ → List Room → Grid →
    List Room × Grid
  | 0, _, _, rooms, g => (rooms, g)
  | fuel + 1, attempts, k, rooms, g =>
    if rooms.length < 5 ∧ attempts < 100 then
      let rw := 4 + ((rand k : ℤ) % 5)
      let rh := 4 + ((rand (k + 1) : ℤ) % 3)
      let rx := 1 + ((rand (k + 2) : ℤ) % (w - rw - 1))
      let ry := 1 + ((rand (k + 3) : ℤ) % (h - rh - 1))
      if (rooms.any fun r => room_overlap ((rx, ry), (rx + rw, ry + rh)) r) then
        placeRooms w h rand fuel (attempts + 1) (k + 4) rooms g
      else
        placeRooms w h rand fuel (attempts + 1) (k + 4)
          (rooms ++ [((rx, ry), (rx + rw, ry + rh))])
          (create_room w h g ((rx, ry), (rx + rw, ry + rh)))
    else (rooms, g)

/-- Map.generate_rooms: place up to five non-overlapping rooms, connect
consecutive rooms with L-corridors, then run the terrain pass. -/
def generate_rooms (w h : ℤ) (rand : ℕ → ℕ) (terrain : ℤ → ℤ → ℚ) (g : Grid) :
    Grid :=
  applyTerrain w h terrain
    (connectRoomsChain w h (placeRooms w h rand 100 0 0 [] g).2
      (placeRooms w h rand 100 0 0 [] g).1)

/-- Map.generate_maze: room mode rebuilds from an all-wall grid through
generate_rooms; maze mode runs create_main_path, the multi-start
carve_passages pass, the flood_fill_connect repair (after carving), and
the terrain pass. -/
def generate_maze (w h : ℤ) (use_rooms : Bool) (shuffle : ℕ → List (ℤ × ℤ))
    (rand : ℕ → ℕ) (carveFuel scanFuel : ℕ) (terrain : ℤ → ℤ → ℚ) : Grid :=
  if use_rooms then generate_rooms w h rand terrain (fun _ _ => '#')
  else
    applyTerrain w h terrain
      (floodFillConnect w h scanFuel
        (carveFromStarts w h shuffle carveFuel (startPoints w h)
          (createMainPath w h (fun _ _ => '#'), 0)).1)

/-- Passability for 4-directional traversal: anything but Wall. -/
def Passable (g : Grid) (p : Pos) : Prop := g p.2 p.1 ≠ '#'

instance (g : Grid) (p : Pos) : Decidable (Passable g p) := by
  unfold Passable; infer_instance

/-- One-cell 4-adjacency. -/
def Adjacent (p q : Pos) : Prop := (p.1 - q.1).natAbs + (p.2 - q.2).natAbs = 1

/-- One traversal step between passable cells. -/
def MStep (g : Grid) (p q : Pos) : Prop := Passable g p ∧ Passable g q ∧ Adjacent p q

/-- Reachability by 4-directional traversal over passable cells. -/
def Reach (g : Grid) : Pos → Pos → Prop := Relation.ReflTransGen (MStep g)

/-- Every passable cell lies strictly inside the border — the invariant
every carving phase of the maze generator maintains. -/
def opensInterior (w h : ℤ) (g : Grid) : Prop :=
  ∀ p : Pos, Passable g p → interiorGuard w h p

/-- Validity of a placed room: footprint strictly inside the border with
both dimensions at least 4 (the placement draws give 4 to 8 by 4 to 6
inside the randint bounds). -/
def ValidRoom (w h : ℤ) (r : Room) : Prop :=
  1 ≤ r.1.1 ∧ r.2.1 ≤ w - 1 ∧ 1 ≤ r.1.2 ∧ r.2.2 ≤ h - 1 ∧
    4 ≤ r.2.1 - r.1.1 ∧ 4 ≤ r.2.2 - r.1.2

/-- Strict interior of a room footprint: exactly the cells create_room
leaves as Floor. -/
def inRoomInterior (r : Room) (p : Pos) : Prop :=
  r.1.1 < p.1 ∧ p.1 < r.2.1 - 1 ∧ r.1.2 < p.2 ∧ p.2 < r.2.2 - 1

instance (r : Room) (p : Pos) : Decidable (inRoomInterior r p) := by
  unfold inRoomInterior; infer_instance

/-- Footprint membership of a room (half-open on the right and bottom, as
in the source range loops). -/
def inRoomFoot (r : Room) (p : Pos) : Prop :=
  r.1.1 ≤ p.1 ∧ p.1 < r.2.1 ∧ r.1.2 ≤ p.2 ∧ p.2 < r.2.2

/-- Centre of a room as computed by connect_rooms. -/
def roomCenter (r : Room) : Pos := ((r.1.1 + r.2.1) / 2, (r.1.2 + r.2.2) / 2)

/- ### Concrete fixtures used by witnesses and counterexamples -/

/-- A small all-floor map used to instantiate theorems with hypotheses. -/
def sampleMap : Map :=
  { width := 6, height := 5, grid := fun _ _ => '.' }

/-- A map holding one health pickup at (2, 1) and one tree at (3, 2). -/
def pickupMap : Map :=
  { width := 6, height := 5
    grid := fun j i =>
      if j = 1 ∧ i = 2 then 'H'
      else if j = 2 ∧ i = 3 then 'T'
      else '.' }

/-- The protected low-health player of the C5 counterexample. -/
def c5Player : Player :=
  { (Player.make 100) with
      health := 5
      protectedFlag := true
      status_effects := [StatusEffect.make "Protection" 2 1] }

/-- A protected enemy used in the C5 witness. -/
def c5Enemy : Enemy :=
  { (Enemy.make 0 0 50 .direct) with
      protectedFlag := true
      status_effects := [StatusEffect.make "Protection" 2 2] }

/-- A protected full-health player used in the C5 witness. -/
def c5ProtPlayer : Player :=
  { (Player.make 100) with
      protectedFlag := true
      status_effects := [StatusEffect.make "Protection" 2 2] }

/-- The combat configuration of the C3 scenario: combat mode, one enemy
whose health has just been reduced to 0, player alive. -/
def c3Game : Game :=
  { combat_mode := true
    player := Player.make 100
    enemies := [Enemy.make 1 1 0 .direct] }

/- ## Theorems -/

/- ### Generic helper lemmas -/

theorem setCell_width (m : Map) (x y : ℤ) (c : Char) : (m.setCell x y c).width = m.width := rfl

theorem setCell_height (m : Map) (x y : ℤ) (c : Char) : (m.setCell x y c).height = m.height := rfl

theorem setCell_grid_ne (m : Map) (x y i j : ℤ) (c : Char) (h : ¬ (i = x ∧ j = y)) :
    (m.setCell x y c).grid j i = m.grid j i := by
  simp only [Map.setCell]
  rw [if_neg]
  intro hc
  exact h ⟨hc.2, hc.1⟩

theorem setCell_grid_self (m : Map) (x y : ℤ) (c : Char) :
    (m.setCell x y c).grid y x = c := by
  simp [Map.setCell]

theorem inBounds_setCell (m : Map) (x y a b : ℤ) (c : Char) :
    (m.setCell x y c).inBounds a b ↔ m.inBounds a b := Iff.rfl

/- ### C9 -/

/-- C9: for every (x, y) outside the grid bounds the terrain queries
return the safe defaults — is_blocked is true, get_terrain_damage is 0 and
get_terrain_effect is 1.0.  (The three queries are read-only in the
source; in the embedding they are plain functions of the map, so they
cannot mutate the grid.) -/
theorem C9_out_of_bounds_safe_defaults (m : Map) (x y : ℤ) (h : ¬ m.inBounds x y) :
    m.is_blocked x y = true ∧ m.get_terrain_damage x y = 0 ∧ m.get_terrain_effect x y = 1 := by
  refine ⟨?_, ?_, ?_⟩ <;> simp [Map.is_blocked, Map.get_terrain_damage, Map.get_terrain_effect, h]

/-- Witness for C9 at the concrete out-of-bounds coordinate (-1, 2). -/
theorem C9_witness :
    sampleMap.is_blocked (-1) 2 = true ∧ sampleMap.get_terrain_damage (-1) 2 = 0 ∧
      sampleMap.get_terrain_effect (-1) 2 = 1 :=
  C9_out_of_bounds_safe_defaults sampleMap (-1) 2 (by decide)

/- ### C10 -/

/-- C10: collect_item and destroy_terrain mutate at most the addressed
cell, an immediately repeated call on the same cell returns None and
leaves the map unchanged, and a call on a cell that is not a pickup
(resp. not Trees) returns None and leaves the map unchanged. -/
theorem C10_collect_destroy_local_idempotent (m : Map) (x y : ℤ) :
    ((m.collect_item x y).2.width = m.width ∧ (m.collect_item x y).2.height = m.height ∧
      ∀ i j : ℤ, ¬ (i = x ∧ j = y) → (m.collect_item x y).2.grid j i = m.grid j i) ∧
    ((m.collect_item x y).2.collect_item x y = (none, (m.collect_item x y).2)) ∧
    (¬ (m.grid y x = 'H' ∨ m.grid y x = 'A' ∨ m.grid y x = 'P') →
      m.collect_item x y = (none, m)) ∧
    ((m.destroy_terrain x y).2.width = m.width ∧ (m.destroy_terrain x y).2.height = m.height ∧
      ∀ i j : ℤ, ¬ (i = x ∧ j = y) → (m.destroy_terrain x y).2.grid j i = m.grid j i) ∧
    ((m.destroy_terrain x y).2.destroy_terrain x y = (none, (m.destroy_terrain x y).2)) ∧
    (m.grid y x ≠ 'T' → m.destroy_terrain x y = (none, m)) := by
  by_cases hb : m.inBounds x y
  · by_cases hc : m.grid y x = 'H' ∨ m.grid y x = 'A' ∨ m.grid y x = 'P'
    · have hcol : m.collect_item x y = (some (m.grid y x), m.setCell x y '.') := by
        simp [Map.collect_item, hb, hc]
      refine ⟨⟨by rw [hcol]; rfl, by rw [hcol]; rfl, ?_⟩, ?_, ?_, ?_⟩
      · intro i j hij
        rw [hcol]
        exact setCell_grid_ne m x y i j '.' hij
      · rw [hcol]
        have hdot : (m.setCell x y '.').grid y x = '.' := setCell_grid_self m x y '.'
        simp [Map.collect_item, hb, hdot,
          show ((m.setCell x y '.').inBounds x y) from hb]
      · intro hnc
        exact absurd hc hnc
      · by_cases ht : m.grid y x = 'T'
        · rcases hc with h | h | h <;> simp [h] at ht
        · have hdt : m.destroy_terrain x y = (none, m) := by
            simp [Map.destroy_terrain, hb, ht]
          refine ⟨⟨by rw [hdt], by rw [hdt], ?_⟩, ?_, ?_⟩
          · intro i j _
            rw [hdt]
          · rw [hdt]
            exact hdt
          · intro _
            exact hdt
    · have hcol : m.collect_item x y = (none, m) := by
        simp only [Map.collect_item, if_neg (not_not_intro hb)]
        rw [if_neg hc]
      refine ⟨⟨by rw [hcol], by rw [hcol], ?_⟩, ?_, ?_, ?_⟩
      · intro i j _
        rw [hcol]
      · rw [hcol]
        exact hcol
      · intro _
        exact hcol
      · by_cases ht : m.grid y x = 'T'
        · have hdt : m.destroy_terrain x y = (some 'T', m.setCell x y '.') := by
            simp [Map.destroy_terrain, hb, ht]
          refine ⟨⟨by rw [hdt]; rfl, by rw [hdt]; rfl, ?_⟩, ?_, ?_⟩
          · intro i j hij
            rw [hdt]
            exact setCell_grid_ne m x y i j '.' hij
          · rw [hdt]
            have hdot : (m.setCell x y '.').grid y x = '.' := setCell_grid_self m x y '.'
            simp [Map.destroy_terrain, hb, hdot,
              show ((m.setCell x y '.').inBounds x y) from hb]
          · intro hnt
            exact absurd ht hnt
        · have hdt : m.destroy_terrain x y = (none, m) := by
            simp [Map.destroy_terrain, hb, ht]
          refine ⟨⟨by rw [hdt], by rw [hdt], ?_⟩, ?_, ?_⟩
          · intro i j _
            rw [hdt]
          · rw [hdt]
            exact hdt
          · intro _
            exact hdt
  · have hcol : m.collect_item x y = (none, m) := by
      simp [Map.collect_item, hb]
    have hdt : m.destroy_terrain x y = (none, m) := by
      simp [Map.destroy_terrain, hb]
    refine ⟨⟨by rw [hcol], by rw [hcol], ?_⟩, ?_, ?_, ⟨by rw [hdt], by rw [hdt], ?_⟩, ?_, ?_⟩
    · intro i j _
      rw [hcol]
    · rw [hcol]
      exact hcol
    · intro _
      exact hcol
    · intro i j _
      rw [hdt]
    · rw [hdt]
      exact hdt
    · intro _
      exact hdt

/-- Witness for C10 on a concrete map: a pickup at (2, 1) and a tree at
(3, 2). -/
theorem C10_witness :
    ((pickupMap.collect_item 2 1).2.width = pickupMap.width ∧
      (pickupMap.collect_item 2 1).2.height = pickupMap.height ∧
      ∀ i j : ℤ, ¬ (i = 2 ∧ j = 1) →
        (pickupMap.collect_item 2 1).2.grid j i = pickupMap.grid j i) ∧
    ((pickupMap.collect_item 2 1).2.collect_item 2 1 =
      (none, (pickupMap.collect_item 2 1).2)) ∧
    (¬ (pickupMap.grid 1 2 = 'H' ∨ pickupMap.grid 1 2 = 'A' ∨ pickupMap.grid 1 2 = 'P') →
      pickupMap.collect_item 2 1 = (none, pickupMap)) ∧
    ((pickupMap.destroy_terrain 2 1).2.width = pickupMap.width ∧
      (pickupMap.destroy_terrain 2 1).2.height = pickupMap.height ∧
      ∀ i j : ℤ, ¬ (i = 2 ∧ j = 1) →
        (pickupMap.destroy_terrain 2 1).2.grid j i = pickupMap.grid j i) ∧
    ((pickupMap.destroy_terrain 2 1).2.destroy_terrain 2 1 =
      (none, (pickupMap.destroy_terrain 2 1).2)) ∧
    (pickupMap.grid 1 2 ≠ 'T' → pickupMap.destroy_terrain 2 1 = (none, pickupMap)) :=
  C10_collect_destroy_local_idempotent pickupMap 2 1

/- ### C2 -/

/-- One health-touching step keeps the Player inside [0, max_health] and
preserves max_health. -/
theorem runOp_health_bounds (p : Player) (op : PlayerHealthOp)
    (hv : match op with
      | .regenTick i => 0 ≤ i
      | .poisonTick i => 0 ≤ i
      | _ => True)
    (h0 : 0 ≤ p.health) (h1 : p.health ≤ p.max_health) :
    0 ≤ (p.runOp op).health ∧ (p.runOp op).health ≤ p.max_health ∧
      (p.runOp op).max_health = p.max_health := by
  have hm : 0 ≤ p.max_health := le_trans h0 h1
  have hkey : ∀ dmg : ℤ, 0 ≤ dmg → ∀ ig : Bool,
      0 ≤ (p.take_damage dmg ig).health ∧ (p.take_damage dmg ig).health ≤ p.max_health := by
    intro dmg hdmg ig
    have hd' : (0 : ℤ) ≤ (if p.protectedFlag && !ig then 7 * dmg / 10 else dmg) := by
      split <;> omega
    simp only [Player.take_damage]
    exact ⟨by split <;> omega, by split <;> omega⟩
  cases op with
  | takeDamage d ig =>
    have hd : (0 : ℤ) ≤ (d : ℤ) := Int.ofNat_nonneg d
    exact ⟨(hkey d hd ig).1, (hkey d hd ig).2, rfl⟩
  | healthPickup =>
    exact ⟨le_min hm (by omega), min_le_left _ _, rfl⟩
  | powerUpPickup =>
    exact ⟨le_min hm (by omega), min_le_left _ _, rfl⟩
  | healthPotion =>
    exact ⟨le_min hm (by omega), min_le_left _ _, rfl⟩
  | healSpell =>
    exact ⟨le_min hm (by omega), min_le_left _ _, rfl⟩
  | regenTick i =>
    have hfl : 0 ≤ Int.floor (3 * i) := Int.floor_nonneg.mpr (by positivity)
    exact ⟨le_min hm (by omega), min_le_left _ _, rfl⟩
  | poisonTick i =>
    have hfl : 0 ≤ Int.floor (5 * i) := Int.floor_nonneg.mpr (by positivity)
    exact ⟨(hkey _ hfl true).1, (hkey _ hfl true).2, rfl⟩

/-- Counterexample to C2 as stated: Enemy.take_damage has no clamp at 0,
so a 60-damage hit on a 50-health enemy leaves health −10, outside
[0, max_health]. -/
theorem C2_counterexample_enemy_negative_health :
    ((Enemy.make 0 0 50 .direct).take_damage 60 false).health = -10 := by
  decide

/-- C2 (amended): for every sequence of damage and heal operations applied
to a Player (all the sites in the source that write Player.health), the
player's health stays within [0, max_health] inclusive at every
observation point.  The Enemy part of the original claim is dropped:
Enemy.take_damage does not clamp at 0 (see the counterexample). -/
theorem C2_amended_player_health_in_bounds (p : Player) (ops : List PlayerHealthOp)
    (hv : ∀ op ∈ ops, match op with
      | PlayerHealthOp.regenTick i => 0 ≤ i
      | PlayerHealthOp.poisonTick i => 0 ≤ i
      | _ => True)
    (h0 : 0 ≤ p.health) (h1 : p.health ≤ p.max_health) :
    0 ≤ (p.runOps ops).health ∧ (p.runOps ops).health ≤ (p.runOps ops).max_health := by
  suffices h : ∀ (ops : List PlayerHealthOp) (p : Player),
      (∀ op ∈ ops, match op with
        | PlayerHealthOp.regenTick i => 0 ≤ i
        | PlayerHealthOp.poisonTick i => 0 ≤ i
        | _ => True) →
      0 ≤ p.health → p.health ≤ p.max_health →
      0 ≤ (p.runOps ops).health ∧ (p.runOps ops).health ≤ (p.runOps ops).max_health by
    exact h ops p hv h0 h1
  intro ops
  induction ops with
  | nil =>
    intro p _ h0 h1
    exact ⟨h0, h1⟩
  | cons op rest ih =>
    intro p hv h0 h1
    have hstep := runOp_health_bounds p op (hv op (by simp)) h0 h1
    have hrest := ih (p.runOp op) (fun o ho => hv o (by simp [ho]))
      hstep.1 (hstep.2.2 ▸ hstep.2.1)
    simpa [Player.runOps] using hrest

/-- Witness for C2 (amended) on a concrete operation sequence. -/
theorem C2_witness :
    0 ≤ ((Player.make 100).runOps
        [.takeDamage 30 false, .healthPickup, .poisonTick 2, .healSpell]).health ∧
      ((Player.make 100).runOps
        [.takeDamage 30 false, .healthPickup, .poisonTick 2, .healSpell]).health ≤
        ((Player.make 100).runOps
          [.takeDamage 30 false, .healthPickup, .poisonTick 2, .healSpell]).max_health :=
  C2_amended_player_health_in_bounds (Player.make 100) _
    (by intro op hop; fin_cases hop <;> norm_num) (by decide) (by decide)

/- ### C5 -/

/-- Counterexample to C5 as stated: a protected Player at health 5 hit for
D = 10 loses only 5 health (the clamp at 0), not floor(10 × 0.7) = 7. -/
theorem C5_counterexample_player_clamp :
    c5Player.health - (c5Player.take_damage 10 false).health ≠ 7 * 10 / 10 := by
  decide

/-- C5 (amended): with Protection active at any intensity I, a
non-ignoring hit of damage D < 90 reduces Enemy health by exactly
floor(D × 0.7) = 7D/10, and Player health by the same amount except that
the result clamps at 0; the 30% reduction never reads I.  (For D ≥ 90 the
source's binary64 product `int(D * 0.7)` can be one below the exact
rational floor, first at D = 90.) -/
theorem C5_amended_protection_reduction (e : Enemy) (p : Player) (I : ℚ) (d : ℕ)
    (hd : (d : ℤ) < 90)
    (heflag : e.protectedFlag = true)
    (heeff : StatusEffect.make "Protection" 2 I ∈ e.status_effects)
    (hpflag : p.protectedFlag = true)
    (hpeff : StatusEffect.make "Protection" 2 I ∈ p.status_effects) :
    (e.take_damage (d : ℤ) false).health = e.health - 7 * (d : ℤ) / 10 ∧
      (p.take_damage (d : ℤ) false).health =
        (if p.health - 7 * (d : ℤ) / 10 < 0 then 0 else p.health - 7 * (d : ℤ) / 10) := by
  constructor
  · simp [Enemy.take_damage, heflag]
  · simp [Player.take_damage, hpflag]

/-- Witness for C5 (amended) at D = 10, I = 2. -/
theorem C5_witness :
    (c5Enemy.take_damage ((10 : ℕ) : ℤ) false).health = c5Enemy.health - 7 * ((10 : ℕ) : ℤ) / 10 ∧
      (c5ProtPlayer.take_damage ((10 : ℕ) : ℤ) false).health =
        (if c5ProtPlayer.health - 7 * ((10 : ℕ) : ℤ) / 10 < 0 then 0
          else c5ProtPlayer.health - 7 * ((10 : ℕ) : ℤ) / 10) :=
  C5_amended_protection_reduction c5Enemy c5ProtPlayer 2 10 (by decide) rfl
    (by simp [c5Enemy, Enemy.make]) rfl (by simp [c5ProtPlayer, Player.make])

/- ### C3 -/

/-- C3: evaluating Game.check_combat_end at the claim's scenario — sole
remaining enemy at health 0 mid-round — shows the game stays in combat
mode with the dead enemy still on the roster: nothing removes defeated
enemies from `self.enemies` while combat_mode is true (removal happens
only in handle_exploration_input), and check_combat_end only tests roster
emptiness and player health. -/
theorem C3_dead_enemy_combat_persists :
    c3Game.check_combat_end.combat_mode = true ∧
      c3Game.check_combat_end.enemies.length = 1 ∧
      c3Game.check_combat_end.enemies.all (fun e => e.health ≤ 0) = true := by
  decide

/- ### C4 -/

/-- The intensity-class names are disjoint from the duration-class names. -/
theorem intensity_not_duration_class (name : String) (h : name ∈ intensityClassNames) :
    name ∉ durationClassNames := by
  fin_cases h <;> decide

/-- Projections of stack_effect: the name of the existing instance is
always kept. -/
theorem stack_effect_name (self e : StatusEffect) (r : ℚ) :
    (self.stack_effect e r).name = e.name := by
  unfold StatusEffect.stack_effect
  split
  · rfl
  · split <;> rfl

/-- The intensity-class branch of stack_effect. -/
theorem stack_effect_of_intensity_class (self e : StatusEffect) (r : ℚ)
    (h1 : self.name ∉ durationClassNames) (h2 : self.name ∈ intensityClassNames) :
    self.stack_effect e r =
      { e with
          intensity := min (e.intensity + self.intensity * r) e.max_intensity
          duration := max e.duration self.base_duration } := by
  unfold StatusEffect.stack_effect
  rw [if_neg h1, if_pos h2]

/-- The flag hooks of apply_effect never touch the status-effect list. -/
theorem applyEffectFlags_status (p : Player) (name : String) :
    (p.applyEffectFlags name).status_effects = p.status_effects := by
  unfold Player.applyEffectFlags
  split
  · rfl
  · split
    · rfl
    · split <;> rfl

/-- Invariant carried through repeated applications of the same
intensity-class effect: exactly one instance with that name, whose cap
fields are those of the first application and whose intensity and
duration stay below the caps. -/
def StackInv (name : String) (d i : ℚ) (es : List StatusEffect) : Prop :=
  es.countP (fun e => e.name = name) = 1 ∧
    ∀ e ∈ es, e.name = name →
      e.max_intensity = i * 3 ∧ e.max_duration = d * 2 ∧ e.base_duration = d ∧
        e.intensity ≤ i * 3 ∧ e.duration ≤ d * 2

theorem stackFirst_inv (name : String) (hname : name ∈ intensityClassNames)
    (d i : ℚ) (hd : 0 ≤ d) (r : ℚ) (es : List StatusEffect)
    (hinv : StackInv name d i es) :
    StackInv name d i (stackFirst (StatusEffect.make name d i) r es) := by
  have hnotdur : name ∉ durationClassNames := intensity_not_duration_class name hname
  have hdd : (StatusEffect.make name d i).base_duration ≤ d * 2 := by
    show d ≤ d * 2
    linarith
  obtain ⟨hlen, hall⟩ := hinv
  induction es with
  | nil => exact ⟨hlen, by intro e he; simp [stackFirst] at he⟩
  | cons e rest ih =>
    by_cases hn : e.name = name
    · have hpe : (decide (e.name = name)) = true := by simp [hn]
      have hstack : stackFirst (StatusEffect.make name d i) r (e :: rest) =
          (StatusEffect.make name d i).stack_effect e r :: rest := by
        simp [stackFirst, StatusEffect.make, hn]
      have hrestnone : ∀ x ∈ rest, ¬ x.name = name := by
        rw [List.countP_cons] at hlen
        simp [hpe] at hlen
        exact hlen
      have hrestzero : rest.countP (fun x => x.name = name) = 0 :=
        List.countP_eq_zero.mpr (by intro a ha; simpa using hrestnone a ha)
      have hstacked := hall e (by simp) hn
      have hnewname : ((StatusEffect.make name d i).stack_effect e r).name = name :=
        (stack_effect_name _ e r).trans hn
      constructor
      · rw [hstack, List.countP_cons, hrestzero]
        simp [hnewname]
      · rw [hstack]
        intro x hx hxname
        rcases List.mem_cons.mp hx with hx1 | hx2
        · subst hx1
          obtain ⟨hmi, hmd, hbd, hile, hdle⟩ := hstacked
          rw [stack_effect_of_intensity_class _ _ _ hnotdur hname]
          refine ⟨hmi, hmd, hbd, ?_, ?_⟩
          · exact le_trans (min_le_right _ _) (le_of_eq hmi)
          · exact max_le hdle hdd
        · exact absurd hxname (hrestnone x hx2)
    · have hpe : (decide (e.name = name)) = false := by simp [hn]
      have hstack : stackFirst (StatusEffect.make name d i) r (e :: rest) =
          e :: stackFirst (StatusEffect.make name d i) r rest := by
        simp [stackFirst, StatusEffect.make, hn]
      have hlenrest : rest.countP (fun x => x.name = name) = 1 := by
        rw [List.countP_cons] at hlen
        simp [hpe] at hlen
        exact hlen
      have hih := ih hlenrest (fun x hx => hall x (by simp [hx]))
      constructor
      · rw [hstack, List.countP_cons, hih.1]
        simp [hpe]
      · rw [hstack]
        intro x hx hxname
        rcases List.mem_cons.mp hx with hx1 | hx2
        · subst hx1
          exact absurd hxname hn
        · exact hih.2 x hx2 hxname

theorem apply_effect_inv (name : String) (hname : name ∈ intensityClassNames)
    (d i : ℚ) (hd : 0 ≤ d) (r : ℚ) (p : Player)
    (hinv : StackInv name d i p.status_effects) :
    StackInv name d i
      ((p.apply_status_effect (StatusEffect.make name d i) r).status_effects) := by
  have hsome : p.status_effects.any
      (fun e => e.name = (StatusEffect.make name d i).name) = true := by
    by_contra hfalse
    have hnone : p.status_effects.countP (fun e => e.name = name) = 0 := by
      apply List.countP_eq_zero.mpr
      intro x hx
      simp only [decide_eq_true_eq]
      intro hxn
      apply hfalse
      simp only [List.any_eq_true, decide_eq_true_eq]
      exact ⟨x, hx, by simpa [StatusEffect.make] using hxn⟩
    rw [hinv.1] at hnone
    omega
  simp only [Player.apply_status_effect]
  rw [if_pos hsome]
  exact stackFirst_inv name hname d i hd r p.status_effects hinv

/-- C4: applying N ≥ 1 copies of a same-named intensity-class effect
(Poison, Regeneration, Strength, Weakness, Protection) to a Player never
creates a second instance with that name, never pushes the stored
intensity above 3× the first application's intensity, and never pushes
the duration above 2× the base duration.  The copies are applied with
arbitrary `random.uniform(0.5, 1.0)` draws `rs`; the conclusion holds at
every observation point because the prefixes of `rs` are themselves
instances of the statement. -/
theorem C4_intensity_stacking_caps (name : String) (hname : name ∈ intensityClassNames)
    (d i : ℚ) (hd : 0 ≤ d) (hi : 0 ≤ i) (p : Player)
    (hfresh : ∀ e ∈ p.status_effects, e.name ≠ name) (rs : List ℚ) :
    let final := rs.foldl (fun q r => q.apply_status_effect (StatusEffect.make name d i) r)
      (p.apply_status_effect (StatusEffect.make name d i) 1)
    ((final.status_effects.filter (fun e => e.name = name)).length = 1 ∧
      ∀ e ∈ final.status_effects, e.name = name →
        e.intensity ≤ 3 * i ∧ e.duration ≤ 2 * d) := by
  intro final
  have hfirst : StackInv name d i
      ((p.apply_status_effect (StatusEffect.make name d i) 1).status_effects) := by
    have hnone : p.status_effects.any
        (fun e => e.name = (StatusEffect.make name d i).name) = false := by
      apply List.any_eq_false.mpr
      intro x hx
      simp only [decide_eq_true_eq]
      exact fun hxn => hfresh x hx (by simpa [StatusEffect.make] using hxn)
    simp only [Player.apply_status_effect]
    rw [if_neg (by simp [hnone])]
    rw [StackInv, applyEffectFlags_status]
    constructor
    · rw [List.countP_append]
      have h1 : p.status_effects.countP (fun e => e.name = name) = 0 := by
        apply List.countP_eq_zero.mpr
        intro x hx
        simp only [decide_eq_true_eq]
        exact hfresh x hx
      rw [h1]
      simp [StatusEffect.make]
    · intro e he hen
      rcases List.mem_append.mp he with h1 | h2
      · exact absurd hen (hfresh e h1)
      · rw [List.mem_singleton] at h2
        subst h2
        refine ⟨rfl, rfl, rfl, ?_, ?_⟩
        · show i ≤ i * 3
          linarith
        · show d ≤ d * 2
          linarith
  have hstep : ∀ (rs : List ℚ) (q : Player), StackInv name d i q.status_effects →
      StackInv name d i
        ((rs.foldl (fun q r => q.apply_status_effect (StatusEffect.make name d i) r)
          q).status_effects) := by
    intro rs
    induction rs with
    | nil => intro q hq; exact hq
    | cons r rest ih =>
      intro q hq
      exact ih _ (apply_effect_inv name hname d i hd r q hq)
  have hfin := hstep rs _ hfirst
  constructor
  · rw [← List.countP_eq_length_filter]
    exact hfin.1
  · intro e he hen
    obtain ⟨_, _, _, hile, hdle⟩ := hfin.2 e he hen
    exact ⟨by linarith, by linarith⟩

/- ### Weapon helper lemmas (C6, C7) -/

theorem take_damage_x (e : Enemy) (dmg : ℤ) (ig : Bool) : (e.take_damage dmg ig).x = e.x := rfl

theorem take_damage_y (e : Enemy) (dmg : ℤ) (ig : Bool) : (e.take_damage dmg ig).y = e.y := rfl

theorem take_damage_unprotected (e : Enemy) (dmg : ℤ) (hp : e.protectedFlag = false) :
    e.take_damage dmg false = { e with health := e.health - dmg } := by
  simp [Enemy.take_damage, hp]

/-- The four direction vectors a 4-direction weapon can resolve to. -/
theorem dirVector4_cases (s : String) :
    dirVector4 s = (0, -1) ∨ dirVector4 s = (0, 1) ∨ dirVector4 s = (-1, 0) ∨
      dirVector4 s = (1, 0) := by
  unfold dirVector4
  split
  · exact Or.inl rfl
  · split
    · exact Or.inr (Or.inl rfl)
    · split
      · exact Or.inr (Or.inr (Or.inl rfl))
      · split
        · exact Or.inr (Or.inr (Or.inr rfl))
        · exact Or.inr (Or.inr (Or.inr rfl))

/-- Cells at distinct distances along a cardinal ray are distinct cells. -/
theorem ray_injective (x y dx dy a b : ℤ)
    (hdisj : (dx, dy) = ((0 : ℤ), (-1 : ℤ)) ∨ (dx, dy) = ((0 : ℤ), (1 : ℤ)) ∨
      (dx, dy) = ((-1 : ℤ), (0 : ℤ)) ∨ (dx, dy) = ((1 : ℤ), (0 : ℤ)))
    (hne : a ≠ b) :
    ¬ (x + dx * a = x + dx * b ∧ y + dy * a = y + dy * b) := by
  rcases hdisj with h | h | h | h <;>
    (rw [Prod.mk.injEq] at h
     obtain ⟨h1, h2⟩ := h
     subst h1
     subst h2
     rintro ⟨hx, hy⟩
     omega)

theorem damageFirstAt_no_match (tx ty dmg : ℤ) (es : List Enemy)
    (h : ∀ e ∈ es, ¬ (e.x = tx ∧ e.y = ty)) :
    damageFirstAt tx ty dmg es = (es, false) := by
  induction es with
  | nil => rfl
  | cons e rest ih =>
    have he : ¬ (e.x = tx ∧ e.y = ty) := h e (by simp)
    simp only [damageFirstAt]
    rw [if_neg he, ih (fun a ha => h a (List.mem_cons_of_mem e ha))]

theorem damageFirstAt_head_match (tx ty dmg : ℤ) (e : Enemy) (rest : List Enemy)
    (h : e.x = tx ∧ e.y = ty) :
    damageFirstAt tx ty dmg (e :: rest) = (e.take_damage dmg false :: rest, true) := by
  simp only [damageFirstAt]
  rw [if_pos h]

theorem damageAllAt_fst (tx ty dmg : ℤ) (es : List Enemy) :
    (damageAllAt tx ty dmg es).1 =
      es.map (fun e => if e.x = tx ∧ e.y = ty then e.take_damage dmg false else e) := by
  induction es with
  | nil => rfl
  | cons e rest ih =>
    rcases hrec : damageAllAt tx ty dmg rest with ⟨rest', n⟩
    have hrest : rest' =
        rest.map (fun e => if e.x = tx ∧ e.y = ty then e.take_damage dmg false else e) := by
      rw [← ih, hrec]
    simp only [damageAllAt, hrec, List.map_cons]
    split
    · simp [hrest]
    · simp [hrest]

/- ### Pistol beam (C6) -/

/-- The pistol beam leaves the enemy list unchanged while walking cells
that hold no enemy, and stops at the first enemy hit, damaging exactly the
first enemy on the path. -/
theorem pistolBeam_three (m : Map) (x y dx dy dmg : ℤ) (d1 d2 d3 : ℤ)
    (hdisj : (dx, dy) = ((0 : ℤ), (-1 : ℤ)) ∨ (dx, dy) = ((0 : ℤ), (1 : ℤ)) ∨
      (dx, dy) = ((-1 : ℤ), (0 : ℤ)) ∨ (dx, dy) = ((1 : ℤ), (0 : ℤ)))
    (h12 : d1 < d2) (h13 : d1 < d3)
    (hopen : ∀ j : ℤ, 1 ≤ j → j ≤ d1 → m.inBounds (x + dx * j) (y + dy * j) ∧
      m.grid (y + dy * j) (x + dx * j) ≠ '#') :
    ∀ (steps : ℕ) (i : ℤ) (st : BeamState) (f1 f2 f3 : Enemy),
      st.enemies = [f1, f2, f3] →
      f1.x = x + dx * d1 → f1.y = y + dy * d1 →
      f2.x = x + dx * d2 → f2.y = y + dy * d2 →
      f3.x = x + dx * d3 → f3.y = y + dy * d3 →
      1 ≤ i → i ≤ d1 → d1 < i + steps →
      (pistolBeam m x y dx dy dmg steps i st).enemies =
        [f1.take_damage dmg false, f2, f3] := by
  intro steps
  induction steps with
  | zero =>
    intro i st f1 f2 f3 _ _ _ _ _ _ _ _ hile hlt
    omega
  | succ steps ih =>
    intro i st f1 f2 f3 hen hx1 hy1 hx2 hy2 hx3 hy3 h1i hile hlt
    have hcell := hopen i h1i hile
    simp only [pistolBeam]
    rw [if_neg (not_not_intro hcell.1), if_neg hcell.2]
    by_cases hieq : i = d1
    · subst hieq
      have hfirst := damageFirstAt_head_match (x + dx * i) (y + dy * i) dmg f1 [f2, f3]
        ⟨hx1, hy1⟩
      rw [hen]
      split
      · rw [hfirst]
        simp
      · rw [hfirst]
        simp
    · have hnone : ∀ e ∈ [f1, f2, f3], ¬ (e.x = x + dx * i ∧ e.y = y + dy * i) := by
        intro e he
        rcases List.mem_cons.mp he with h | he2
        · subst h
          rw [hx1, hy1]
          exact ray_injective x y dx dy d1 i hdisj (by omega)
        rcases List.mem_cons.mp he2 with h | he3
        · subst h
          rw [hx2, hy2]
          exact ray_injective x y dx dy d2 i hdisj (by omega)
        rcases List.mem_cons.mp he3 with h | he4
        · subst h
          rw [hx3, hy3]
          exact ray_injective x y dx dy d3 i hdisj (by omega)
        · simp at he4
      have hnm := damageFirstAt_no_match (x + dx * i) (y + dy * i) dmg [f1, f2, f3] hnone
      rw [hen]
      split
      · rw [hnm]
        simp only [Bool.false_eq_true, if_false]
        exact ih (i + 1) _ f1 f2 f3 rfl hx1 hy1 hx2 hy2 hx3 hy3 (by omega) (by omega)
          (by omega)
      · rw [hnm]
        simp only [Bool.false_eq_true, if_false]
        exact ih (i + 1) _ f1 f2 f3 rfl hx1 hy1 hx2 hy2 hx3 hy3 (by omega) (by omega)
          (by omega)

/- ### Rail beam (C6) -/

theorem damageAllAt_no_match (tx ty dmg : ℤ) (es : List Enemy)
    (h : ∀ e ∈ es, ¬ (e.x = tx ∧ e.y = ty)) :
    damageAllAt tx ty dmg es = (es, 0) := by
  induction es with
  | nil => rfl
  | cons e rest ih =>
    have he : ¬ (e.x = tx ∧ e.y = ty) := h e (by simp)
    simp only [damageAllAt]
    rw [ih (fun a ha => h a (List.mem_cons_of_mem e ha))]
    rw [if_neg he]

/-- A rail beam walking cells that hold none of the enemies leaves the
enemy list unchanged. -/
theorem railBeam_untouched (m : Map) (x y dx dy dmg : ℤ) :
    ∀ (steps : ℕ) (i : ℤ) (st : BeamState),
      (∀ e ∈ st.enemies, ∀ j : ℤ, i ≤ j → ¬ (e.x = x + dx * j ∧ e.y = y + dy * j)) →
      (railBeam m x y dx dy dmg steps i st).enemies = st.enemies := by
  intro steps
  induction steps with
  | zero =>
    intro i st _
    rfl
  | succ steps ih =>
    intro i st h
    simp only [railBeam]
    split
    · rfl
    · split
      · rfl
      · have hnm := damageAllAt_no_match (x + dx * i) (y + dy * i) dmg st.enemies
          (fun e he => h e he i le_rfl)
        split
        · rw [hnm]
          show (railBeam m x y dx dy dmg steps (i + 1)
              { enemies := st.enemies
                hit_trees := st.hit_trees ++ [(x + dx * i, y + dy * i)]
                beam_positions := st.beam_positions ++ [(x + dx * i, y + dy * i)]
                hits := st.hits + 0 }).enemies = st.enemies
          exact ih (i + 1) _ (fun e he j hj => h e he j (by omega))
        · rw [hnm]
          show (railBeam m x y dx dy dmg steps (i + 1)
              { enemies := st.enemies
                hit_trees := st.hit_trees
                beam_positions := st.beam_positions ++ [(x + dx * i, y + dy * i)]
                hits := st.hits + 0 }).enemies = st.enemies
          exact ih (i + 1) _ (fun e he j hj => h e he j (by omega))

/-- The rail beam damages every enemy on the open segment of the ray it
walks, each exactly once. -/
theorem railBeam_three (m : Map) (x y dx dy dmg d1 d2 d3 : ℤ)
    (hdisj : (dx, dy) = ((0 : ℤ), (-1 : ℤ)) ∨ (dx, dy) = ((0 : ℤ), (1 : ℤ)) ∨
      (dx, dy) = ((-1 : ℤ), (0 : ℤ)) ∨ (dx, dy) = ((1 : ℤ), (0 : ℤ)))
    (h12 : d1 < d2) (h23 : d2 < d3)
    (hopen : ∀ j : ℤ, 1 ≤ j → j ≤ d3 → m.inBounds (x + dx * j) (y + dy * j) ∧
      m.grid (y + dy * j) (x + dx * j) ≠ '#') :
    ∀ (steps : ℕ) (i : ℤ) (st : BeamState) (f1 f2 f3 : Enemy),
      st.enemies = [f1, f2, f3] →
      f1.x = x + dx * d1 → f1.y = y + dy * d1 →
      f2.x = x + dx * d2 → f2.y = y + dy * d2 →
      f3.x = x + dx * d3 → f3.y = y + dy * d3 →
      1 ≤ i → d3 < i + steps →
      (railBeam m x y dx dy dmg steps i st).enemies =
        [ (if i ≤ d1 then f1.take_damage dmg false else f1),
          (if i ≤ d2 then f2.take_damage dmg false else f2),
          (if i ≤ d3 then f3.take_damage dmg false else f3) ] := by
  intro steps
  induction steps with
  | zero =>
    intro i st f1 f2 f3 hen _ _ _ _ _ _ _ hlt
    rw [if_neg (by omega), if_neg (by omega), if_neg (by omega)]
    exact hen
  | succ steps ih =>
    intro i st f1 f2 f3 hen hx1 hy1 hx2 hy2 hx3 hy3 h1i hlt
    by_cases hi3 : i ≤ d3
    · have hcell := hopen i h1i hi3
      have hmap := damageAllAt_fst (x + dx * i) (y + dy * i) dmg [f1, f2, f3]
      have hc1 : (if f1.x = x + dx * i ∧ f1.y = y + dy * i then f1.take_damage dmg false
          else f1) = (if i = d1 then f1.take_damage dmg false else f1) := by
        by_cases hd : i = d1
        · subst hd
          rw [if_pos ⟨hx1, hy1⟩, if_pos rfl]
        · rw [hx1, hy1, if_neg (ray_injective x y dx dy d1 i hdisj (by omega)),
            if_neg hd]
      have hc2 : (if f2.x = x + dx * i ∧ f2.y = y + dy * i then f2.take_damage dmg false
          else f2) = (if i = d2 then f2.take_damage dmg false else f2) := by
        by_cases hd : i = d2
        · subst hd
          rw [if_pos ⟨hx2, hy2⟩, if_pos rfl]
        · rw [hx2, hy2, if_neg (ray_injective x y dx dy d2 i hdisj (by omega)),
            if_neg hd]
      have hc3 : (if f3.x = x + dx * i ∧ f3.y = y + dy * i then f3.take_damage dmg false
          else f3) = (if i = d3 then f3.take_damage dmg false else f3) := by
        by_cases hd : i = d3
        · subst hd
          rw [if_pos ⟨hx3, hy3⟩, if_pos rfl]
        · rw [hx3, hy3, if_neg (ray_injective x y dx dy d3 i hdisj (by omega)),
            if_neg hd]
      have hcomp : ∀ (f : Enemy) (dk : ℤ),
          (if i + 1 ≤ dk then
              (if i = dk then f.take_damage dmg false else f).take_damage dmg false
            else (if i = dk then f.take_damage dmg false else f)) =
          (if i ≤ dk then f.take_damage dmg false else f) := by
        intro f dk
        by_cases h1 : i = dk
        · subst h1
          rw [if_neg (by omega), if_pos rfl, if_pos le_rfl]
        · by_cases h2 : i + 1 ≤ dk
          · rw [if_pos h2, if_neg h1, if_pos (by omega)]
          · rw [if_neg h2, if_neg h1, if_neg (by omega)]
      have hgx : ∀ (f : Enemy) (dk a b : ℤ), f.x = a → f.y = b →
          ((if i = dk then f.take_damage dmg false else f).x = a ∧
            (if i = dk then f.take_damage dmg false else f).y = b) := by
        intro f dk a b hxa hyb
        constructor <;> split <;> simp [take_damage_x, take_damage_y, hxa, hyb]
      obtain ⟨hg1x, hg1y⟩ := hgx f1 d1 _ _ hx1 hy1
      obtain ⟨hg2x, hg2y⟩ := hgx f2 d2 _ _ hx2 hy2
      obtain ⟨hg3x, hg3y⟩ := hgx f3 d3 _ _ hx3 hy3
      simp only [railBeam]
      rw [if_neg (not_not_intro hcell.1), if_neg hcell.2, hen]
      split
      · rw [hmap]
        simp only [List.map_cons, List.map_nil, hc1, hc2, hc3]
        rw [ih (i + 1) _ _ _ _ rfl hg1x hg1y hg2x hg2y hg3x hg3y (by omega) (by omega)]
        simp only [hcomp]
        rw [if_pos hi3]
      · rw [hmap]
        simp only [List.map_cons, List.map_nil, hc1, hc2, hc3]
        rw [ih (i + 1) _ _ _ _ rfl hg1x hg1y hg2x hg2y hg3x hg3y (by omega) (by omega)]
        simp only [hcomp]
        rw [if_pos hi3]
    · have huntouched := railBeam_untouched m x y dx dy dmg (steps + 1) i st
        (by
          intro e he j hj
          rw [hen] at he
          rcases List.mem_cons.mp he with h | he2
          · subst h
            rw [hx1, hy1]
            exact ray_injective x y dx dy d1 j hdisj (by omega)
          rcases List.mem_cons.mp he2 with h | he3
          · subst h
            rw [hx2, hy2]
            exact ray_injective x y dx dy d2 j hdisj (by omega)
          rcases List.mem_cons.mp he3 with h | he4
          · subst h
            rw [hx3, hy3]
            exact ray_injective x y dx dy d3 j hdisj (by omega)
          · simp at he4)
      rw [huntouched, hen, if_neg (by omega), if_neg (by omega), if_neg (by omega)]

/-- C6: for a line of 3 enemies aligned along the fire direction within
weapon range with no intervening wall, a rail-gun shot damages all three
by its damage value (45), while a laser-pistol shot along the same line
damages only the first enemy (by 20) and no others. -/
theorem C6_rail_pierces_pistol_single_target (m : Map) (x y : ℤ) (direction : String)
    (dx dy : ℤ)
    (hd4 : dirVector4 direction = (dx, dy))
    (hd8 : dirVector8 direction = (dx, dy))
    (e1 e2 e3 : Enemy) (d1 d2 d3 : ℤ)
    (hd1 : 1 ≤ d1) (h12 : d1 < d2) (h23 : d2 < d3) (hd3 : d3 ≤ 10)
    (hx1 : e1.x = x + dx * d1) (hy1 : e1.y = y + dy * d1)
    (hx2 : e2.x = x + dx * d2) (hy2 : e2.y = y + dy * d2)
    (hx3 : e3.x = x + dx * d3) (hy3 : e3.y = y + dy * d3)
    (hp1 : e1.protectedFlag = false) (hp2 : e2.protectedFlag = false)
    (hp3 : e3.protectedFlag = false)
    (hopen : ∀ j : ℤ, 1 ≤ j → j ≤ d3 → m.inBounds (x + dx * j) (y + dy * j) ∧
      m.grid (y + dy * j) (x + dx * j) ≠ '#')
    (wr wp : Weapon) (nowr nowp : ℚ)
    (hwrd : wr.damage = 45) (hwrr : wr.range = 12) (hwrc : wr.can_shoot nowr = true)
    (hwpd : wp.damage = 20) (hwpr : wp.range = 10) (hwpc : wp.can_shoot nowp = true) :
    (RailGun.shoot wr nowr x y direction m [e1, e2, e3]).enemies.map Enemy.health =
        [e1.health - 45, e2.health - 45, e3.health - 45] ∧
      (LaserPistol.shoot wp nowp x y direction m [e1, e2, e3]).enemies.map Enemy.health =
        [e1.health - 20, e2.health, e3.health] := by
  have hdisj := hd4 ▸ dirVector4_cases direction
  constructor
  · have hrail := railBeam_three m x y dx dy wr.damage d1 d2 d3 hdisj h12 h23 hopen
      wr.range.toNat 1
      { enemies := [e1, e2, e3], hit_trees := [], beam_positions := [], hits := 0 }
      e1 e2 e3 rfl hx1 hy1 hx2 hy2 hx3 hy3 le_rfl
      (by rw [hwrr]; norm_num; omega)
    rw [if_pos hd1, if_pos (by omega), if_pos (by omega)] at hrail
    simp only [RailGun.shoot]
    rw [if_neg (by simp [hwrc]), hd4]
    simp only []
    rw [hrail]
    simp [take_damage_unprotected e1 _ hp1, take_damage_unprotected e2 _ hp2,
      take_damage_unprotected e3 _ hp3, hwrd]
  · have hpistol := pistolBeam_three m x y dx dy wp.damage d1 d2 d3 hdisj h12 (by omega)
      (fun j hj1 hjd => hopen j hj1 (by omega))
      wp.range.toNat 1
      { enemies := [e1, e2, e3], hit_trees := [], beam_positions := [], hits := 0 }
      e1 e2 e3 rfl hx1 hy1 hx2 hy2 hx3 hy3 le_rfl hd1
      (by rw [hwpr]; norm_num; omega)
    simp only [LaserPistol.shoot]
    rw [if_neg (by simp [hwpc]), hd8]
    simp only []
    rw [hpistol]
    simp [take_damage_unprotected e1 _ hp1, hwpd]

/-- Witness for C6: three enemies at (1,2), (2,2), (3,2), shooter at
(0,2) firing right on the all-floor sample map. -/
theorem C6_witness :
    (RailGun.shoot RailGun.make 1 0 2 "right" sampleMap
        [Enemy.make 1 2 50 .direct, Enemy.make 2 2 50 .direct,
          Enemy.make 3 2 50 .direct]).enemies.map Enemy.health =
        [50 - 45, 50 - 45, 50 - 45] ∧
      (LaserPistol.shoot LaserPistol.make 1 0 2 "right" sampleMap
        [Enemy.make 1 2 50 .direct, Enemy.make 2 2 50 .direct,
          Enemy.make 3 2 50 .direct]).enemies.map Enemy.health =
        [50 - 20, 50, 50] :=
  C6_rail_pierces_pistol_single_target sampleMap 0 2 "right" 1 0 (by decide) (by decide)
    (Enemy.make 1 2 50 .direct) (Enemy.make 2 2 50 .direct) (Enemy.make 3 2 50 .direct)
    1 2 3 (by decide) (by decide) (by decide) (by decide)
    (by decide) (by decide) (by decide) (by decide) (by decide) (by decide)
    rfl rfl rfl
    (by
      intro j hj1 hj3
      refine ⟨?_, ?_⟩
      · simp only [sampleMap, Map.inBounds]
        omega
      · intro h
        simp [sampleMap] at h)
    RailGun.make LaserPistol.make 1 1 rfl rfl
    (by norm_num [Weapon.can_shoot, RailGun.make]) rfl rfl
    (by norm_num [Weapon.can_shoot, LaserPistol.make])

/- ### Grenade splash (C7) -/

theorem grenadeDamageAt_no_match (tx ty dmg : ℤ) (es : List Enemy) :
    ∀ (idx : ℕ) (hit : List ℕ), (∀ e ∈ es, ¬ (e.x = tx ∧ e.y = ty)) →
      grenadeDamageAt tx ty dmg es idx hit = (es, hit) := by
  induction es with
  | nil =>
    intro idx hit _
    rfl
  | cons e rest ih =>
    intro idx hit h
    have he : ¬ (e.x = tx ∧ e.y = ty) := h e (by simp)
    simp only [grenadeDamageAt]
    rw [if_neg (by rintro ⟨ha, hb, _⟩; exact he ⟨ha, hb⟩)]
    rw [ih (idx + 1) hit (fun a ha => h a (List.mem_cons_of_mem e ha))]

theorem grenadeDamageAt_pair_first (tx ty dmg : ℤ) (c r : Enemy) (hit : List ℕ)
    (hc : c.x = tx ∧ c.y = ty) (hr : ¬ (r.x = tx ∧ r.y = ty)) (h0 : (0 : ℕ) ∉ hit) :
    grenadeDamageAt tx ty dmg [c, r] 0 hit = ([c.take_damage dmg false, r], hit ++ [0]) := by
  simp only [grenadeDamageAt]
  rw [if_pos ⟨hc.1, hc.2, h0⟩]
  rw [if_neg (by rintro ⟨ha, hb, _⟩; exact hr ⟨ha, hb⟩)]

theorem grenadeDamageAt_pair_second (tx ty dmg : ℤ) (c r : Enemy) (hit : List ℕ)
    (hc : ¬ (c.x = tx ∧ c.y = ty)) (hr : r.x = tx ∧ r.y = ty) (h1 : (1 : ℕ) ∉ hit) :
    grenadeDamageAt tx ty dmg [c, r] 0 hit = ([c, r.take_damage dmg false], hit ++ [1]) := by
  simp only [grenadeDamageAt]
  rw [if_neg (by rintro ⟨ha, hb, _⟩; exact hc ⟨ha, hb⟩)]
  rw [if_pos ⟨hr.1, hr.2, h1⟩]

/-- Unfolded form of one blast subcell (the `match` and the intermediate
`let` states of the source loop normalised away; equal by structure eta). -/
theorem grenadeCell_eq (m : Map) (ix iy dmg : ℤ) (st : BlastState) (o : ℤ × ℤ) :
    grenadeCell m ix iy dmg st o =
      if m.inBounds (ix + o.1) (iy + o.2) ∧ m.grid (iy + o.2) (ix + o.1) ≠ '#' then
        { enemies := (grenadeDamageAt (ix + o.1) (iy + o.2)
              (if o.1 = 0 ∧ o.2 = 0 then dmg else dmg / 2) st.enemies 0 st.hit).1
          hit := (grenadeDamageAt (ix + o.1) (iy + o.2)
              (if o.1 = 0 ∧ o.2 = 0 then dmg else dmg / 2) st.enemies 0 st.hit).2
          hit_trees := if m.grid (iy + o.2) (ix + o.1) = 'T' then
              st.hit_trees ++ [(ix + o.1, iy + o.2)] else st.hit_trees
          cells := st.cells ++ [(ix + o.1, iy + o.2)] }
      else st := by
  simp only [grenadeCell]
  split
  · split <;> split <;> rfl
  · rfl

/-- A blast subcell that holds none of the enemies never changes the enemy
list or the hit bookkeeping. -/
theorem grenadeCell_skip (m : Map) (ix iy dmg : ℤ) (st : BlastState) (o : ℤ × ℤ)
    (h : ∀ e ∈ st.enemies, ¬ (e.x = ix + o.1 ∧ e.y = iy + o.2)) :
    (grenadeCell m ix iy dmg st o).enemies = st.enemies ∧
      (grenadeCell m ix iy dmg st o).hit = st.hit := by
  rw [grenadeCell_eq]
  split
  · rw [grenadeDamageAt_no_match (ix + o.1) (iy + o.2) _ st.enemies 0 st.hit h]
    exact ⟨rfl, rfl⟩
  · exact ⟨rfl, rfl⟩

/-- Processing the centre subcell damages an enemy standing there by the
full damage and records it. -/
theorem grenadeCell_center (m : Map) (ix iy dmg : ℤ) (st : BlastState) (c r : Enemy)
    (hopen : m.inBounds ix iy ∧ m.grid iy ix ≠ '#')
    (hen : st.enemies = [c, r]) (hc : c.x = ix ∧ c.y = iy) (hr : ¬ (r.x = ix ∧ r.y = iy))
    (h0 : (0 : ℕ) ∉ st.hit) :
    (grenadeCell m ix iy dmg st (0, 0)).enemies = [c.take_damage dmg false, r] ∧
      (grenadeCell m ix iy dmg st (0, 0)).hit = st.hit ++ [0] := by
  rw [grenadeCell_eq]
  rw [if_pos (by simpa using hopen)]
  rw [hen]
  rw [if_pos ⟨rfl, rfl⟩]
  rw [grenadeDamageAt_pair_first (ix + 0) (iy + 0) dmg c r st.hit
    (by simpa using hc) (by simpa using hr) h0]
  exact ⟨rfl, rfl⟩

/-- Processing a non-centre subcell damages an enemy standing there by the
halved damage and records it. -/
theorem grenadeCell_ring (m : Map) (ix iy dmg : ℤ) (st : BlastState) (c r : Enemy)
    (ox oy : ℤ) (ho : ¬ (ox = 0 ∧ oy = 0))
    (hopen : m.inBounds (ix + ox) (iy + oy) ∧ m.grid (iy + oy) (ix + ox) ≠ '#')
    (hen : st.enemies = [c, r]) (hc : ¬ (c.x = ix + ox ∧ c.y = iy + oy))
    (hr : r.x = ix + ox ∧ r.y = iy + oy)
    (h1 : (1 : ℕ) ∉ st.hit) :
    (grenadeCell m ix iy dmg st (ox, oy)).enemies = [c, r.take_damage (dmg / 2) false] ∧
      (grenadeCell m ix iy dmg st (ox, oy)).hit = st.hit ++ [1] := by
  rw [grenadeCell_eq]
  rw [if_pos hopen]
  rw [hen]
  rw [if_neg ho]
  rw [grenadeDamageAt_pair_second (ix + ox) (iy + oy) (dmg / 2) c r st.hit hc hr h1]
  exact ⟨rfl, rfl⟩

/-- Folding the blast over a duplicate-free offset list damages the enemy
at the centre by the full damage exactly when the centre offset is in the
list, and the enemy on a ring cell by the halved damage exactly when its
offset is in the list; nobody is ever hit twice. -/
theorem blast_fold (m : Map) (ix iy dmg ox oy : ℤ) (ho : ¬ (ox = 0 ∧ oy = 0))
    (hcopen : m.inBounds ix iy ∧ m.grid iy ix ≠ '#')
    (hropen : m.inBounds (ix + ox) (iy + oy) ∧ m.grid (iy + oy) (ix + ox) ≠ '#') :
    ∀ (offs : List (ℤ × ℤ)), offs.Nodup →
      ∀ (st : BlastState) (c r : Enemy),
        st.enemies = [c, r] →
        c.x = ix → c.y = iy → r.x = ix + ox → r.y = iy + oy →
        c.protectedFlag = false → r.protectedFlag = false →
        ((0, 0) ∈ offs → (0 : ℕ) ∉ st.hit) → ((ox, oy) ∈ offs → (1 : ℕ) ∉ st.hit) →
        (offs.foldl (grenadeCell m ix iy dmg) st).enemies =
          [ (if ((0 : ℤ), (0 : ℤ)) ∈ offs then c.take_damage dmg false else c),
            (if (ox, oy) ∈ offs then r.take_damage (dmg / 2) false else r) ] := by
  intro offs
  induction offs with
  | nil =>
    intro _ st c r hen _ _ _ _ _ _ _ _
    simpa using hen
  | cons o rest ih =>
    intro hnodup st c r hen hcx hcy hrx hry hcp hrp h0 h1
    have hne_cr : ¬ (r.x = ix ∧ r.y = iy) := by
      rw [hrx, hry]
      rintro ⟨ha, hb⟩
      exact ho ⟨by omega, by omega⟩
    have hne_rc : ¬ (c.x = ix + ox ∧ c.y = iy + oy) := by
      rw [hcx, hcy]
      rintro ⟨ha, hb⟩
      exact ho ⟨by omega, by omega⟩
    by_cases hoc : o = ((0 : ℤ), (0 : ℤ))
    · subst hoc
      have hstep := grenadeCell_center m ix iy dmg st c r hcopen hen ⟨hcx, hcy⟩ hne_cr
        (h0 (List.mem_cons_self _ _))
      have hnotin : ((0 : ℤ), (0 : ℤ)) ∉ rest := (List.nodup_cons.mp hnodup).1
      have hnero : ((ox, oy) ∈ (((0 : ℤ), (0 : ℤ)) :: rest)) ↔ ((ox, oy) ∈ rest) := by
        simp only [List.mem_cons]
        constructor
        · rintro (h | h)
          · exact absurd (Prod.ext_iff.mp h) ho
          · exact h
        · exact Or.inr
      have hrec := ih (List.nodup_cons.mp hnodup).2 (grenadeCell m ix iy dmg st (0, 0))
        (c.take_damage dmg false) r hstep.1
        (by rw [take_damage_x, hcx]) (by rw [take_damage_y, hcy]) hrx hry
        (by rw [show (c.take_damage dmg false).protectedFlag = c.protectedFlag from rfl, hcp])
        hrp
        (fun hmem => absurd hmem hnotin)
        (fun hmem => by
          rw [hstep.2]
          simp only [List.mem_append, List.mem_singleton]
          rintro (hin | hone)
          · exact h1 (List.mem_cons_of_mem _ hmem) hin
          · omega)
      rw [if_neg hnotin] at hrec
      rw [List.foldl_cons, hrec]
      rw [if_pos (show ((0 : ℤ), (0 : ℤ)) ∈ (((0 : ℤ), (0 : ℤ)) :: rest) from
        List.mem_cons_self _ _)]
      rw [if_congr hnero rfl rfl]
    · by_cases hor : o = (ox, oy)
      · subst hor
        have hstep := grenadeCell_ring m ix iy dmg st c r ox oy ho hropen hen hne_rc
          ⟨hrx, hry⟩ (h1 (List.mem_cons_self _ _))
        have hnotin : (ox, oy) ∉ rest := (List.nodup_cons.mp hnodup).1
        have hnezo : (((0 : ℤ), (0 : ℤ)) ∈ ((ox, oy) :: rest)) ↔
            (((0 : ℤ), (0 : ℤ)) ∈ rest) := by
          simp only [List.mem_cons]
          constructor
          · rintro (h | h)
            · exact absurd (Prod.ext_iff.mp h.symm) ho
            · exact h
          · exact Or.inr
        have hrec := ih (List.nodup_cons.mp hnodup).2 (grenadeCell m ix iy dmg st (ox, oy))
          c (r.take_damage (dmg / 2) false) hstep.1
          hcx hcy (by rw [take_damage_x, hrx]) (by rw [take_damage_y, hry])
          hcp
          (by rw [show (r.take_damage (dmg / 2) false).protectedFlag = r.protectedFlag from
            rfl, hrp])
          (fun hmem => by
            rw [hstep.2]
            simp only [List.mem_append, List.mem_singleton]
            rintro (hin | hzero)
            · exact h0 (List.mem_cons_of_mem _ hmem) hin
            · omega)
          (fun hmem => absurd hmem hnotin)
        rw [if_neg hnotin] at hrec
        rw [List.foldl_cons, hrec]
        rw [if_pos (show (ox, oy) ∈ ((ox, oy) :: rest) from List.mem_cons_self _ _)]
        rw [if_congr hnezo rfl rfl]
      · have hskip := grenadeCell_skip m ix iy dmg st o
          (by
            intro e he
            rw [hen] at he
            rcases List.mem_cons.mp he with h | he2
            · subst h
              rw [hcx, hcy]
              rintro ⟨ha, hb⟩
              exact hoc (Prod.ext_iff.mpr ⟨by omega, by omega⟩)
            rcases List.mem_cons.mp he2 with h | he3
            · subst h
              rw [hrx, hry]
              rintro ⟨ha, hb⟩
              exact hor (Prod.ext_iff.mpr ⟨by omega, by omega⟩)
            · simp at he3)
        have hrec := ih (List.nodup_cons.mp hnodup).2 (grenadeCell m ix iy dmg st o)
          c r (hskip.1.trans hen) hcx hcy hrx hry hcp hrp
          (fun hmem => by rw [hskip.2]; exact h0 (List.mem_cons_of_mem _ hmem))
          (fun hmem => by rw [hskip.2]; exact h1 (List.mem_cons_of_mem _ hmem))
        rw [List.foldl_cons, hrec]
        have hco : (((0 : ℤ), (0 : ℤ)) ∈ o :: rest) ↔ (((0 : ℤ), (0 : ℤ)) ∈ rest) := by
          simp only [List.mem_cons]
          constructor
          · rintro (h | h)
            · exact absurd h.symm hoc
            · exact h
          · exact Or.inr
        have hro : ((ox, oy) ∈ o :: rest) ↔ ((ox, oy) ∈ rest) := by
          simp only [List.mem_cons]
          constructor
          · rintro (h | h)
            · exact absurd h.symm hor
            · exact h
          · exact Or.inr
        rw [if_congr hco rfl rfl, if_congr hro rfl rfl]

/-- C7: a grenade-launcher shot computes its impact point at 2/3 of max
range along the direction vector (range 8 gives ⌊8·2/3⌋ = 5 cells),
clamps it to grid bounds (the max/min in `hix`/`hiy`), and damages
enemies in the 3×3 block centred there: the enemy on the centre cell
loses the full weapon damage 25, an enemy on any one of the 8
surrounding open cells loses ⌊25/2⌋ = 12, and the hit bookkeeping keeps
either from being damaged twice even though both sit in several of the
nine subcells scanned. -/
theorem C7_grenade_splash (m : Map) (x y : ℤ) (direction : String) (now : ℚ)
    (dx dy ix iy ox oy : ℤ) (c r : Enemy)
    (hd4 : dirVector4 direction = (dx, dy))
    (hix : ix = max 0 (min (x + dx * 5) (m.width - 1)))
    (hiy : iy = max 0 (min (y + dy * 5) (m.height - 1)))
    (ho : (ox, oy) ∈ blastOffsets) (honz : ¬ (ox = 0 ∧ oy = 0))
    (hcopen : m.inBounds ix iy ∧ m.grid iy ix ≠ '#')
    (hropen : m.inBounds (ix + ox) (iy + oy) ∧ m.grid (iy + oy) (ix + ox) ≠ '#')
    (hcx : c.x = ix) (hcy : c.y = iy) (hrx : r.x = ix + ox) (hry : r.y = iy + oy)
    (hcp : c.protectedFlag = false) (hrp : r.protectedFlag = false)
    (w : Weapon) (hwd : w.damage = 25) (hwr : w.range = 8)
    (hwc : w.can_shoot now = true) :
    (GrenadeLauncher.shoot w now x y direction m [c, r]).enemies.map Enemy.health =
      [c.health - 25, r.health - 12] := by
  have hfold := blast_fold m ix iy w.damage ox oy honz hcopen hropen
    blastOffsets (by decide)
    { enemies := [c, r], hit := [], hit_trees := [], cells := [] }
    c r rfl hcx hcy hrx hry hcp hrp
    (fun _ => List.not_mem_nil _)
    (fun _ => List.not_mem_nil _)
  rw [if_pos (by decide), if_pos ho, hwd] at hfold
  simp only [GrenadeLauncher.shoot]
  rw [if_neg (by simp [hwc]), hd4]
  simp only []
  rw [hwr]
  norm_num
  rw [← hix, ← hiy, hwd, hfold]
  simp [take_damage_unprotected c _ hcp, take_damage_unprotected r _ hrp]

/-- Witness for C7: on the all-floor 6×5 sample map the shooter at (0,2)
fires right; the impact point is (5,2); the centre enemy at (5,2) loses
25, the diagonal-ring enemy at (4,1) loses 12. -/
theorem C7_witness :
    (GrenadeLauncher.shoot GrenadeLauncher.make 1 0 2 "right" sampleMap
        [Enemy.make 5 2 60 .direct, Enemy.make 4 1 40 .direct]).enemies.map Enemy.health =
      [35, 28] :=
  C7_grenade_splash sampleMap 0 2 "right" 1 1 0 5 2 (-1) (-1)
    (Enemy.make 5 2 60 .direct) (Enemy.make 4 1 40 .direct)
    (by decide) (by decide) (by decide) (by decide) (by decide)
    (by decide) (by decide)
    (by decide) (by decide) (by decide) (by decide) rfl rfl
    GrenadeLauncher.make rfl rfl
    (by norm_num [Weapon.can_shoot, GrenadeLauncher.make])

/- ### C8 -/

/-- Counterexample to C8 as stated: after a base Enemy's move attempt at
move_cooldown 0, the new cooldown is `random.randint(0, 2)` — not any
fixed `speed − 1` (the base Enemy has no speed attribute).  Two valid
draws of the randint oracle give different cooldowns (0 and 2) from the
identical pre-move state. -/
theorem C8_counterexample_basic_reset_random :
    ¬ ∃ s : ℤ, ∀ n : ℕ,
      ((Enemy.make 2 2 50 .direct).move_towards 5 2 sampleMap 0 0 []
        { slowDraw := 1, flankDraw := 0, rerollDraw := 1, rerollChoice := 0,
          cooldownRoll := n }).move_cooldown = s := by
  rintro ⟨s, hs⟩
  have h0 := hs 0
  have h2 := hs 2
  have e0 : ((Enemy.make 2 2 50 .direct).move_towards 5 2 sampleMap 0 0 []
      { slowDraw := 1, flankDraw := 0, rerollDraw := 1, rerollChoice := 0,
        cooldownRoll := 0 }).move_cooldown = 0 := by decide
  have e2 : ((Enemy.make 2 2 50 .direct).move_towards 5 2 sampleMap 0 0 []
      { slowDraw := 1, flankDraw := 0, rerollDraw := 1, rerollChoice := 0,
        cooldownRoll := 2 }).move_cooldown = 2 := by decide
  rw [e0] at h0
  rw [e2] at h2
  omega

/-- C8 (amended): on every move tick of an acting enemy, a positive
move_cooldown is decremented and no move occurs (for the base Enemy and
for FastEnemy); a move fires only at cooldown 0, after which FastEnemy
resets move_cooldown to speed − 1 = 1 while the base Enemy resets it to
a uniformly random value in {0, 1, 2} (randint(0, 2)) instead of
speed − 1. -/
theorem C8_amended_move_cooldown_gate (e : Enemy) (tx ty px py : ℤ) (m : Map)
    (others : List Enemy) (R : MoveRand) (slowDraw : ℚ)
    (hpar : e.paralyzed = false) (hslow : e.slowed = false) :
    (e.move_cooldown > 0 →
      FastEnemy.move_towards e tx ty m px py others slowDraw =
          { e with move_cooldown := e.move_cooldown - 1 } ∧
        e.move_towards tx ty m px py others R =
          { e with move_cooldown := e.move_cooldown - 1 }) ∧
    (e.move_cooldown = 0 →
      (FastEnemy.move_towards e tx ty m px py others slowDraw).move_cooldown =
          FastEnemy.speed - 1 ∧
        (FastEnemy.move_towards e tx ty m px py others slowDraw).x =
          (e.direct_move (tx - e.x) (ty - e.y) m px py others).x ∧
        (FastEnemy.move_towards e tx ty m px py others slowDraw).y =
          (e.direct_move (tx - e.x) (ty - e.y) m px py others).y ∧
        0 ≤ (e.move_towards tx ty m px py others R).move_cooldown ∧
        (e.move_towards tx ty m px py others R).move_cooldown < 3) := by
  have hca : ∀ q : ℚ, e.can_act q = true := by
    intro q
    simp [Enemy.can_act, hpar, hslow]
  constructor
  · intro hgt
    constructor
    · simp [FastEnemy.move_towards, hca, hgt]
    · simp [Enemy.move_towards, hca, hgt]
  · intro hz
    have hngt : ¬ e.move_cooldown > 0 := by omega
    have hbase : (e.move_towards tx ty m px py others R).move_cooldown =
        ((R.cooldownRoll % 3 : ℕ) : ℤ) := by
      simp [Enemy.move_towards, hca, hngt]
    refine ⟨?_, ?_, ?_, ?_, ?_⟩
    · simp [FastEnemy.move_towards, FastEnemy.speed, hca, hngt]
    · simp [FastEnemy.move_towards, hca, hngt]
    · simp [FastEnemy.move_towards, hca, hngt]
    · rw [hbase]
      omega
    · rw [hbase]
      omega

/-- Witness for C8 (amended) on a concrete acting FastEnemy/basic-enemy
state. -/
theorem C8_witness :
    ((Enemy.make 2 2 30 .direct).move_cooldown > 0 →
      FastEnemy.move_towards (Enemy.make 2 2 30 .direct) 5 2 sampleMap 0 0 [] 1 =
          { (Enemy.make 2 2 30 .direct) with
              move_cooldown := (Enemy.make 2 2 30 .direct).move_cooldown - 1 } ∧
        (Enemy.make 2 2 30 .direct).move_towards 5 2 sampleMap 0 0 []
            { slowDraw := 1, flankDraw := 0, rerollDraw := 1, rerollChoice := 0,
              cooldownRoll := 0 } =
          { (Enemy.make 2 2 30 .direct) with
              move_cooldown := (Enemy.make 2 2 30 .direct).move_cooldown - 1 }) ∧
    ((Enemy.make 2 2 30 .direct).move_cooldown = 0 →
      (FastEnemy.move_towards (Enemy.make 2 2 30 .direct) 5 2 sampleMap 0 0 []
          1).move_cooldown = FastEnemy.speed - 1 ∧
        (FastEnemy.move_towards (Enemy.make 2 2 30 .direct) 5 2 sampleMap 0 0 [] 1).x =
          ((Enemy.make 2 2 30 .direct).direct_move (5 - (Enemy.make 2 2 30 .direct).x)
            (2 - (Enemy.make 2 2 30 .direct).y) sampleMap 0 0 []).x ∧
        (FastEnemy.move_towards (Enemy.make 2 2 30 .direct) 5 2 sampleMap 0 0 [] 1).y =
          ((Enemy.make 2 2 30 .direct).direct_move (5 - (Enemy.make 2 2 30 .direct).x)
            (2 - (Enemy.make 2 2 30 .direct).y) sampleMap 0 0 []).y ∧
        0 ≤ ((Enemy.make 2 2 30 .direct).move_towards 5 2 sampleMap 0 0 []
            { slowDraw := 1, flankDraw := 0, rerollDraw := 1, rerollChoice := 0,
              cooldownRoll := 0 }).move_cooldown ∧
        ((Enemy.make 2 2 30 .direct).move_towards 5 2 sampleMap 0 0 []
            { slowDraw := 1, flankDraw := 0, rerollDraw := 1, rerollChoice := 0,
              cooldownRoll := 0 }).move_cooldown < 3) :=
  C8_amended_move_cooldown_gate (Enemy.make 2 2 30 .direct) 5 2 0 0 sampleMap []
    { slowDraw := 1, flankDraw := 0, rerollDraw := 1, rerollChoice := 0,
      cooldownRoll := 0 } 1 rfl rfl

/-- Witness for C4: three applications of Poison(duration 3, intensity 1)
with draws 1, 3/4 and 1/2. -/
theorem C4_witness :
    let final := ([3/4, 1/2] : List ℚ).foldl
      (fun q r => q.apply_status_effect (StatusEffect.make "Poison" 3 1) r)
      ((Player.make 100).apply_status_effect (StatusEffect.make "Poison" 3 1) 1)
    ((final.status_effects.filter (fun e => e.name = "Poison")).length = 1 ∧
      ∀ e ∈ final.status_effects, e.name = "Poison" →
        e.intensity ≤ 3 * 1 ∧ e.duration ≤ 2 * 3) :=
  C4_intensity_stacking_caps "Poison" (by decide) 3 1 (by norm_num) (by norm_num)
    (Player.make 100) (by intro e he; simp [Player.make] at he) [3/4, 1/2]

/- ### C1 toolkit: reachability facts -/

/-- Adjacency is symmetric. -/
theorem adjacent_symm {p q : Pos} (h : Adjacent p q) : Adjacent q p := by
  unfold Adjacent at *
  omega

/-- Traversal steps are symmetric. -/
theorem mstep_symm {g : Grid} {p q : Pos} (h : MStep g p q) : MStep g q p :=
  ⟨h.2.1, h.1, adjacent_symm h.2.2⟩

/-- Reachability is symmetric. -/
theorem reach_symm {g : Grid} {p q : Pos} (h : Reach g p q) : Reach g q p := by
  induction h with
  | refl => exact Relation.ReflTransGen.refl
  | tail _ hstep ih => exact Relation.ReflTransGen.head (mstep_symm hstep) ih

/-- Reachability is monotone under opening more cells. -/
theorem reach_mono {g g' : Grid} (hmono : ∀ p, Passable g p → Passable g' p)
    {p q : Pos} (h : Reach g p q) : Reach g' p q :=
  Relation.ReflTransGen.mono
    (fun _ _ hs => ⟨hmono _ hs.1, hmono _ hs.2.1, hs.2.2⟩) h

/-- Cells opened by a Floor write: the written cell plus everything that
was already passable. -/
theorem writeCell_passable (g : Grid) (p q : Pos) :
    Passable (writeCell g p '.') q ↔ q = p ∨ Passable g q := by
  unfold Passable writeCell
  by_cases hq : q.2 = p.2 ∧ q.1 = p.1
  · rw [if_pos hq]
    simp [Prod.ext_iff, hq.1, hq.2]
  · rw [if_neg hq]
    constructor
    · exact Or.inr
    · rintro (rfl | hp)
      · exact absurd ⟨rfl, rfl⟩ hq
      · exact hp

/-- Cells opened by a guarded carve. -/
theorem carveIfInterior_passable (w h : ℤ) (g : Grid) (p q : Pos) :
    Passable (carveIfInterior w h g p) q ↔
      (interiorGuard w h p ∧ q = p) ∨ Passable g q := by
  unfold carveIfInterior
  split
  · rw [writeCell_passable]
    constructor
    · rintro (rfl | hp)
      · exact Or.inl ⟨by assumption, rfl⟩
      · exact Or.inr hp
    · rintro (⟨_, rfl⟩ | hp)
      · exact Or.inl rfl
      · exact Or.inr hp
  · constructor
    · exact Or.inr
    · rintro (⟨hi, _⟩ | hp)
      · exact absurd hi (by assumption)
      · exact hp

/-- A Floor write at an inner cell keeps all passable cells inner. -/
theorem writeCell_opens (w h : ℤ) {g : Grid} {p : Pos}
    (hp : interiorGuard w h p) (hg : opensInterior w h g) :
    opensInterior w h (writeCell g p '.') := by
  intro q hq
  rcases (writeCell_passable g p q).mp hq with rfl | hq'
  · exact hp
  · exact hg q hq'

/-- A guarded carve keeps all passable cells inner, unconditionally. -/
theorem carveIfInterior_opens (w h : ℤ) {g : Grid} (p : Pos)
    (hg : opensInterior w h g) : opensInterior w h (carveIfInterior w h g p) := by
  intro q hq
  rcases (carveIfInterior_passable w h g p q).mp hq with ⟨hi, rfl⟩ | hq'
  · exact hi
  · exact hg q hq'

/-- Fold preservation of an invariant. -/
theorem foldl_preserve {σ α : Type} (P : σ → Prop) (f : σ → α → σ) :
    ∀ l : List α, (∀ s a, a ∈ l → P s → P (f s a)) → ∀ s, P s → P (l.foldl f s)
  | [], _, _, hs => hs
  | a :: l, hf, s, hs =>
    foldl_preserve P f l (fun s b hb => hf s b (List.mem_cons_of_mem _ hb))
      (f s a) (hf s a (List.mem_cons_self _ _) hs)

/-- Walking right along a fully passable row is a reachability path. -/
theorem reach_row_right (g : Grid) (j : ℤ) :
    ∀ n : ℕ, ∀ x : ℤ, (∀ k : ℕ, k ≤ n → Passable g (x + k, j)) →
      Reach g (x, j) (x + (n : ℤ), j)
  | 0, x, _ => by simpa using Relation.ReflTransGen.refl
  | n + 1, x, hp => by
    have htail := reach_row_right g j n x (fun k hk => hp k (by omega))
    refine Relation.ReflTransGen.tail htail ⟨?_, ?_, ?_⟩
    · simpa using hp n (by omega)
    · simpa using hp (n + 1) (by omega)
    · unfold Adjacent
      simp

/-- Walking down along a fully passable column is a reachability path. -/
theorem reach_col_down (g : Grid) (x : ℤ) :
    ∀ n : ℕ, ∀ j : ℤ, (∀ k : ℕ, k ≤ n → Passable g (x, j + k)) →
      Reach g (x, j) (x, j + (n : ℤ))
  | 0, j, _ => by simpa using Relation.ReflTransGen.refl
  | n + 1, j, hp => by
    have htail := reach_col_down g x n j (fun k hk => hp k (by omega))
    refine Relation.ReflTransGen.tail htail ⟨?_, ?_, ?_⟩
    · simpa using hp n (by omega)
    · simpa using hp (n + 1) (by omega)
    · unfold Adjacent
      simp

/-- Reachability along a passable row segment, in either direction. -/
theorem reach_row (g : Grid) (j a b : ℤ)
    (hp : ∀ i : ℤ, min a b ≤ i → i ≤ max a b → Passable g (i, j)) :
    Reach g (a, j) (b, j) := by
  rcases le_total a b with hab | hab
  · have hr := reach_row_right g j (b - a).toNat a
      (fun k hk => hp (a + k) (by omega) (by omega))
    rw [show a + (((b - a).toNat : ℕ) : ℤ) = b by omega] at hr
    exact hr
  · have hr := reach_row_right g j (a - b).toNat b
      (fun k hk => hp (b + k) (by omega) (by omega))
    rw [show b + (((a - b).toNat : ℕ) : ℤ) = a by omega] at hr
    exact reach_symm hr

/-- Reachability along a passable column segment, in either direction. -/
theorem reach_col (g : Grid) (x a b : ℤ)
    (hp : ∀ j : ℤ, min a b ≤ j → j ≤ max a b → Passable g (x, j)) :
    Reach g (x, a) (x, b) := by
  rcases le_total a b with hab | hab
  · have hr := reach_col_down g x (b - a).toNat a
      (fun k hk => hp (a + k) (by omega) (by omega))
    rw [show a + (((b - a).toNat : ℕ) : ℤ) = b by omega] at hr
    exact hr
  · have hr := reach_col_down g x (a - b).toNat b
      (fun k hk => hp (b + k) (by omega) (by omega))
    rw [show b + (((a - b).toNat : ℕ) : ℤ) = a by omega] at hr
    exact reach_symm hr

/-- Any two cells of a fully passable rectangle are mutually reachable
(row first, then column). -/
theorem reach_rect (g : Grid) (x1 x2 y1 y2 : ℤ)
    (hp : ∀ p : Pos, x1 ≤ p.1 → p.1 ≤ x2 → y1 ≤ p.2 → p.2 ≤ y2 → Passable g p)
    (p q : Pos) (hpx : x1 ≤ p.1) (hpx2 : p.1 ≤ x2) (hpy : y1 ≤ p.2) (hpy2 : p.2 ≤ y2)
    (hqx : x1 ≤ q.1) (hqx2 : q.1 ≤ x2) (hqy : y1 ≤ q.2) (hqy2 : q.2 ≤ y2) :
    Reach g p q := by
  have hrow : Reach g (p.1, p.2) (q.1, p.2) :=
    reach_row g p.2 p.1 q.1 (fun i h1 h2 => hp (i, p.2) (by omega) (by omega) hpy hpy2)
  have hcol : Reach g (q.1, p.2) (q.1, q.2) :=
    reach_col g q.1 p.2 q.2 (fun j h1 h2 => hp (q.1, j) hqx hqx2 (by omega) (by omega))
  exact hrow.trans hcol

/-- Chain composition: internally connected groups whose consecutive
members are bridged are globally connected. -/
theorem chainReach {α : Type} (Mem : Pos → α → Prop) (R : Pos → Pos → Prop)
    (htr : Transitive R) (hsy : Symmetric R) :
    ∀ L : List α,
      List.Chain' (fun A B => ∃ p1, Mem p1 A ∧ ∃ p2, Mem p2 B ∧ R p1 p2) L →
      (∀ A ∈ L, ∀ a b, Mem a A → Mem b A → R a b) →
      ∀ A ∈ L, ∀ B ∈ L, ∀ a b, Mem a A → Mem b B → R a b := by
  intro L
  induction L with
  | nil => intro _ _ A hA; exact absurd hA (List.not_mem_nil _)
  | cons A0 tail ih =>
    intro hchain hint A hA B hB a b ha hb
    have hAB : ∀ C ∈ tail, ∀ c, Mem c C → ∀ a0, Mem a0 A0 → R a0 c := by
      intro C hC c hc a0 ha0
      cases tail with
      | nil => exact absurd hC (List.not_mem_nil _)
      | cons B0 rest =>
        rw [List.chain'_cons] at hchain
        obtain ⟨⟨p1, hp1, p2, hp2, hR⟩, hchain'⟩ := hchain
        have h1 : R a0 p1 := hint A0 (List.mem_cons_self _ _) a0 p1 ha0 hp1
        have h2 : R p2 c := ih hchain'
          (fun C' hC' => hint C' (List.mem_cons_of_mem _ hC'))
          B0 (List.mem_cons_self _ _) C hC p2 c hp2 hc
        exact htr (htr h1 hR) h2
    rcases List.mem_cons.mp hA with rfl | hA'
    · rcases List.mem_cons.mp hB with rfl | hB'
      · exact hint _ (List.mem_cons_self _ _) a b ha hb
      · exact hAB B hB' b hb a ha
    · rcases List.mem_cons.mp hB with rfl | hB'
      · exact hsy (hAB A hA' a ha b hb)
      · cases tail with
        | nil => exact absurd hA' (List.not_mem_nil _)
        | cons B0 rest =>
          rw [List.chain'_cons] at hchain
          exact ih hchain.2 (fun C' hC' => hint C' (List.mem_cons_of_mem _ hC'))
            A hA' B hB' a b ha hb

/- ### C1: the carving phases only open inner cells -/

/-- The create_main_path walk only opens inner cells. -/
theorem mainWalk_opens (w h : ℤ) :
    ∀ fuel (g : Grid) (c t : Pos), opensInterior w h g →
      opensInterior w h (mainWalk w h fuel g c t)
  | 0, _, _, _, hg => hg
  | fuel + 1, g, c, t, hg => by
    rw [mainWalk]
    split
    · exact hg
    · exact mainWalk_opens w h fuel _ _ _ (carveIfInterior_opens w h _ hg)

/-- create_main_path only opens inner cells (the unguarded centre write
is inner for the sizes the game uses). -/
theorem createMainPath_opens (w h : ℤ) (hw : 10 ≤ w) (hh : 8 ≤ h) (g : Grid)
    (hg : opensInterior w h g) : opensInterior w h (createMainPath w h g) := by
  unfold createMainPath
  refine foldl_preserve (opensInterior w h) _ _ (fun s a _ hs => mainWalk_opens w h _ _ _ _ hs) _ ?_
  refine writeCell_opens w h ?_ hg
  unfold interiorGuard
  constructor
  · omega
  constructor
  · omega
  constructor
  · omega
  · omega

/-- The seven widening writes of one accepted carve direction only open
inner cells. -/
theorem carveWide_opens (w h : ℤ) {g : Grid} {x y : ℤ} (d : ℤ × ℤ)
    (hd : d ∈ mazeDirs) (hxy : interiorGuard w h (x, y))
    (hn : interiorGuard w h (x + d.1 * 3, y + d.2 * 3))
    (hg : opensInterior w h g) : opensInterior w h (carveWide g x y d.1 d.2) := by
  unfold interiorGuard at hxy hn
  simp only at hxy hn
  simp only [mazeDirs, List.mem_cons, List.not_mem_nil, or_false] at hd
  rcases hd with rfl | rfl | rfl | rfl <;>
    [skip; skip; skip; skip] <;>
    · simp only [carveWide]
      norm_num
      repeat
        refine writeCell_opens w h ⟨by omega, by omega, by omega, by omega⟩ ?_
      exact hg

/-- carve_passages only opens inner cells, for every fuel, any shuffle
oracle whose draws stay in the direction list, and any inner start. -/
theorem carvePassages_opens (w h : ℤ) (shuffle : ℕ → List (ℤ × ℤ))
    (hsh : ∀ k, ∀ d ∈ shuffle k, d ∈ mazeDirs) :
    ∀ fuel (x y : ℤ) (g : Grid) (k : ℕ), interiorGuard w h (x, y) →
      opensInterior w h g →
      opensInterior w h (carvePassages w h shuffle fuel x y (g, k)).1
  | 0, _, _, _, _, _, hg => hg
  | fuel + 1, x, y, g, k, hxy, hg => by
    rw [carvePassages]
    refine foldl_preserve (fun s => opensInterior w h s.1) _ _ ?_ (g, k + 1) hg
    intro s d hd hs
    simp only
    split
    · next hguard =>
      have hwide := carveWide_opens w h d (hsh k d hd) hxy hguard.1 hs
      exact carvePassages_opens w h shuffle hsh fuel _ _ _ _ hguard.1 hwide
    · exact hs

/-- The start-point pass only opens inner cells. -/
theorem carveFromStarts_opens (w h : ℤ) (shuffle : ℕ → List (ℤ × ℤ))
    (hsh : ∀ k, ∀ d ∈ shuffle k, d ∈ mazeDirs) (fuel : ℕ) :
    ∀ (starts : List Pos) (g : Grid) (k : ℕ),
      (∀ p ∈ starts, interiorGuard w h p) → opensInterior w h g →
      opensInterior w h (carveFromStarts w h shuffle fuel starts (g, k)).1
  | [], _, _, _, hg => hg
  | p :: rest, g, k, hst, hg => by
    rw [carveFromStarts]
    split
    · have hp := hst p (List.mem_cons_self _ _)
      have hw : opensInterior w h (writeCell g p '.') := writeCell_opens w h hp hg
      have hcp := carvePassages_opens w h shuffle hsh fuel p.1 p.2 (writeCell g p '.')
        k hp hw
      have := carveFromStarts_opens w h shuffle hsh fuel rest
        (carvePassages w h shuffle fuel p.1 p.2 (writeCell g p '.', k)).1
        (carvePassages w h shuffle fuel p.1 p.2 (writeCell g p '.', k)).2
        (fun q hq => hst q (List.mem_cons_of_mem _ hq)) hcp
      exact this
    · exact carveFromStarts_opens w h shuffle hsh fuel rest g k
        (fun q hq => hst q (List.mem_cons_of_mem _ hq)) hg

/-- All five carve start points are inner cells for the sizes the game
uses. -/
theorem startPoints_interior (w h : ℤ) (hw : 10 ≤ w) (hh : 8 ≤ h) :
    ∀ p ∈ startPoints w h, interiorGuard w h p := by
  intro p hp
  unfold startPoints at hp
  unfold interiorGuard
  simp only [List.mem_cons, List.not_mem_nil, or_false] at hp
  rcases hp with rfl | rfl | rfl | rfl | rfl <;>
    exact ⟨by omega, by omega, by omega, by omega⟩

/- ### C1: the area scan of flood_fill_connect -/

/-- collect_area only ever grows the accumulated area. -/
theorem collectArea_sub (g : Grid) (w h : ℤ) :
    ∀ fuel (area : List Pos) (p : Pos) (x : Pos), x ∈ area →
      x ∈ collectArea g w h fuel area p
  | 0, _, _, _, hx => hx
  | fuel + 1, area, p, x, hx => by
    rw [collectArea]
    split
    · exact hx
    split
    · exact hx
    · refine foldl_preserve (fun a => x ∈ a) _ _ ?_ _ (List.mem_append_left _ hx)
      intro a d _ ha
      exact collectArea_sub g w h fuel a _ x ha

/-- Everything collect_area adds is passable and reachable from the
given anchor, provided the entry area is and the seed is reachable when
passable. -/
theorem collectArea_spec (g : Grid) (w h : ℤ) (s : Pos) :
    ∀ fuel (area : List Pos) (p : Pos),
      (∀ c ∈ area, Passable g c ∧ Reach g s c) →
      (Passable g p → Reach g s p) →
      ∀ c ∈ collectArea g w h fuel area p, Passable g c ∧ Reach g s c
  | 0, _, _, ha, _, c, hc => ha c hc
  | fuel + 1, area, p, ha, hp, c, hc => by
    rw [collectArea] at hc
    split at hc
    · exact ha c hc
    split at hc
    · exact ha c hc
    · next h2 =>
      have hpass : Passable g p := h2
      have hreach := hp hpass
      have hbase : ∀ c ∈ area ++ [p], Passable g c ∧ Reach g s c := by
        intro c hc
        rcases List.mem_append.mp hc with hc | hc
        · exact ha c hc
        · rw [List.mem_singleton] at hc
          subst hc
          exact ⟨hpass, hreach⟩
      refine foldl_preserve (fun a => ∀ c ∈ a, Passable g c ∧ Reach g s c) _ _
        ?_ _ hbase c hc
      intro a d hd haa
      refine collectArea_spec g w h s fuel a _ haa ?_
      intro hq
      refine Relation.ReflTransGen.tail hreach ⟨hpass, hq, ?_⟩
      simp only [mazeDirs, List.mem_cons, List.not_mem_nil, or_false] at hd
      unfold Adjacent
      rcases hd with rfl | rfl | rfl | rfl <;> simp

/-- A passable in-bounds seed always ends up in its own collected area
once there is any fuel. -/
theorem collectArea_seed (g : Grid) (w h : ℤ) :
    ∀ fuel (area : List Pos) (p : Pos), 1 ≤ fuel →
      (0 ≤ p.1 ∧ p.1 < w ∧ 0 ≤ p.2 ∧ p.2 < h) → Passable g p →
      p ∈ collectArea g w h fuel area p
  | 0, _, _, hf, _, _ => absurd hf (by omega)
  | fuel + 1, area, p, _, hb, hp => by
    rw [collectArea]
    split
    · next hcond =>
      rcases hcond with hmem | hnb
      · exact hmem
      · exact absurd hb hnb
    split
    · next hwall => exact absurd hwall hp
    · refine foldl_preserve (fun a => p ∈ a) _ _ ?_ _
        (List.mem_append_right _ (List.mem_singleton.mpr rfl))
      intro a d _ ha
      exact collectArea_sub g w h fuel a _ p ha

/-- The visited set of the scan only grows. -/
theorem scanAreas_visited_mono (g : Grid) (w h : ℤ) (fuel : ℕ) :
    ∀ (cells visited : List Pos) (acc : List (List Pos)) (x : Pos),
      x ∈ visited → x ∈ (scanAreas g w h fuel cells visited acc).2
  | [], _, _, _, hx => hx
  | _ :: rest, visited, acc, x, hx => by
    rw [scanAreas]
    split
    · exact scanAreas_visited_mono g w h fuel rest _ _ x (List.mem_append_left _ hx)
    · exact scanAreas_visited_mono g w h fuel rest _ _ x hx

/-- The area list of the scan only grows. -/
theorem scanAreas_acc_mono (g : Grid) (w h : ℤ) (fuel : ℕ) :
    ∀ (cells visited : List Pos) (acc : List (List Pos)) (A : List Pos),
      A ∈ acc → A ∈ (scanAreas g w h fuel cells visited acc).1
  | [], _, _, _, hA => hA
  | _ :: rest, visited, acc, A, hA => by
    rw [scanAreas]
    split
    · exact scanAreas_acc_mono g w h fuel rest _ _ A (List.mem_append_left _ hA)
    · exact scanAreas_acc_mono g w h fuel rest _ _ A hA

/-- Every passable in-bounds scanned cell ends up visited. -/
theorem scanAreas_covers (g : Grid) (w h : ℤ) (fuel : ℕ) (hf : 1 ≤ fuel) :
    ∀ (cells visited : List Pos) (acc : List (List Pos)) (p : Pos), p ∈ cells →
      (0 ≤ p.1 ∧ p.1 < w ∧ 0 ≤ p.2 ∧ p.2 < h) → Passable g p →
      p ∈ (scanAreas g w h fuel cells visited acc).2
  | [], _, _, p, hp, _, _ => absurd hp (List.not_mem_nil _)
  | q :: rest, visited, acc, p, hp, hb, hpass => by
    rcases List.mem_cons.mp hp with rfl | hp'
    · rw [scanAreas]
      split
      · exact scanAreas_visited_mono g w h fuel rest _ _ p
          (List.mem_append_right _ (collectArea_seed g w h fuel [] p hf hb hpass))
      · next hcond =>
        have hv : p ∈ visited := by
          by_contra hnv
          exact hcond ⟨hpass, hnv⟩
        exact scanAreas_visited_mono g w h fuel rest _ _ p hv
    · rw [scanAreas]
      split
      · exact scanAreas_covers g w h fuel hf rest _ _ p hp' hb hpass
      · exact scanAreas_covers g w h fuel hf rest _ _ p hp' hb hpass

/-- Every visited cell was already visited or lies in one of the
returned areas. -/
theorem scanAreas_visited_src (g : Grid) (w h : ℤ) (fuel : ℕ) :
    ∀ (cells visited : List Pos) (acc : List (List Pos)) (c : Pos),
      c ∈ (scanAreas g w h fuel cells visited acc).2 →
      c ∈ visited ∨ ∃ A ∈ (scanAreas g w h fuel cells visited acc).1, c ∈ A
  | [], _, _, c, hc => Or.inl hc
  | p :: rest, visited, acc, c, hc => by
    by_cases hcond : g p.2 p.1 ≠ '#' ∧ p ∉ visited
    · rw [scanAreas, if_pos hcond] at hc ⊢
      rcases scanAreas_visited_src g w h fuel rest _ _ c hc with hcv | ⟨A, hA, hcA⟩
      · rcases List.mem_append.mp hcv with hv | hna
        · exact Or.inl hv
        · refine Or.inr ⟨collectArea g w h fuel [] p, ?_, hna⟩
          refine scanAreas_acc_mono g w h fuel rest _ _ _ ?_
          refine List.mem_append_right _ ?_
          have hne : ¬ (collectArea g w h fuel [] p).isEmpty = true := by
            rw [List.isEmpty_iff]
            intro heq
            rw [heq] at hna
            exact List.not_mem_nil c hna
          rw [if_neg hne]
          exact List.mem_singleton.mpr rfl
      · exact Or.inr ⟨A, hA, hcA⟩
    · rw [scanAreas, if_neg hcond] at hc ⊢
      exact scanAreas_visited_src g w h fuel rest _ _ c hc

/-- Every returned area was already accumulated or is the collected
component of a passable scanned seed. -/
theorem scanAreas_areas_src (g : Grid) (w h : ℤ) (fuel : ℕ) :
    ∀ (cells visited : List Pos) (acc : List (List Pos)) (A : List Pos),
      A ∈ (scanAreas g w h fuel cells visited acc).1 →
      A ∈ acc ∨ ∃ p ∈ cells, Passable g p ∧ A = collectArea g w h fuel [] p
  | [], _, _, A, hA => Or.inl hA
  | p :: rest, visited, acc, A, hA => by
    by_cases hcond : g p.2 p.1 ≠ '#' ∧ p ∉ visited
    · rw [scanAreas, if_pos hcond] at hA
      rcases scanAreas_areas_src g w h fuel rest _ _ A hA with hacc | ⟨q, hq, hqp, hEq⟩
      · rcases List.mem_append.mp hacc with h1 | h2
        · exact Or.inl h1
        · refine Or.inr ⟨p, List.mem_cons_self _ _, hcond.1, ?_⟩
          by_cases hne : (collectArea g w h fuel [] p).isEmpty = true
          · rw [if_pos hne] at h2
            exact absurd h2 (List.not_mem_nil _)
          · rw [if_neg hne] at h2
            exact List.mem_singleton.mp h2
      · exact Or.inr ⟨q, List.mem_cons_of_mem _ hq, hqp, hEq⟩
    · rw [scanAreas, if_neg hcond] at hA
      rcases scanAreas_areas_src g w h fuel rest _ _ A hA with hacc | ⟨q, hq, hqp, hEq⟩
      · exact Or.inl hacc
      · exact Or.inr ⟨q, List.mem_cons_of_mem _ hq, hqp, hEq⟩

/-- Every inner cell is scanned. -/
theorem interiorCells_mem (w h : ℤ) (p : Pos) (hp : interiorGuard w h p) :
    p ∈ interiorCells w h := by
  obtain ⟨px, py⟩ := p
  unfold interiorGuard at hp
  dsimp only at hp
  unfold interiorCells
  rw [List.mem_flatMap]
  refine ⟨(py - 1).toNat, ?_, ?_⟩
  · rw [List.mem_range]
    omega
  · rw [List.mem_map]
    refine ⟨(px - 1).toNat, ?_, ?_⟩
    · rw [List.mem_range]
      omega
    · simp only [Prod.mk.injEq]
      constructor
      · omega
      · omega

/-- Scanned cells are in bounds. -/
theorem interiorCells_bounds (w h : ℤ) (p : Pos) (hp : p ∈ interiorCells w h) :
    0 ≤ p.1 ∧ p.1 < w ∧ 0 ≤ p.2 ∧ p.2 < h := by
  obtain ⟨px, py⟩ := p
  unfold interiorCells at hp
  rw [List.mem_flatMap] at hp
  obtain ⟨j, hj, hp⟩ := hp
  rw [List.mem_map] at hp
  obtain ⟨i, hi, heq⟩ := hp
  rw [List.mem_range] at hj hi
  rw [← heq]
  dsimp only
  refine ⟨by omega, by omega, by omega, by omega⟩

/- ### C1: the corridor carving of the repair pass -/

/-- The walk move stays strictly inside the hull of the endpoints, so an
inner start and target keep it at inner cells. -/
theorem walkNext_interior (w h : ℤ) (c t : Pos) (hne : c ≠ t)
    (hc : interiorGuard w h c) (ht : interiorGuard w h t) :
    interiorGuard w h (walkNext c t) := by
  obtain ⟨cx, cy⟩ := c
  obtain ⟨tx, ty⟩ := t
  have hne' : ¬ (cx = tx ∧ cy = ty) := by
    intro ⟨h1, h2⟩
    exact hne (by rw [h1, h2])
  unfold interiorGuard at *
  unfold walkNext
  dsimp only at *
  split
  · exact ⟨by omega, by omega, by omega, by omega⟩
  split
  · exact ⟨by omega, by omega, by omega, by omega⟩
  split
  · exact ⟨by omega, by omega, by omega, by omega⟩
  · exact ⟨by omega, by omega, by omega, by omega⟩

/-- The walk move is one cell of 4-adjacency. -/
theorem walkNext_adj (c t : Pos) (hne : c ≠ t) : Adjacent c (walkNext c t) := by
  obtain ⟨cx, cy⟩ := c
  obtain ⟨tx, ty⟩ := t
  have hne' : ¬ (cx = tx ∧ cy = ty) := by
    intro ⟨h1, h2⟩
    exact hne (by rw [h1, h2])
  unfold walkNext Adjacent
  dsimp only
  split
  · dsimp only; omega
  split
  · dsimp only; omega
  split
  · dsimp only; omega
  · dsimp only; omega

/-- The walk move decreases the Manhattan distance to the target by one. -/
theorem walkNext_dist (c t : Pos) (hne : c ≠ t) :
    (t.1 - (walkNext c t).1).natAbs + (t.2 - (walkNext c t).2).natAbs + 1 =
      (t.1 - c.1).natAbs + (t.2 - c.2).natAbs := by
  obtain ⟨cx, cy⟩ := c
  obtain ⟨tx, ty⟩ := t
  have hne' : ¬ (cx = tx ∧ cy = ty) := by
    intro ⟨h1, h2⟩
    exact hne (by rw [h1, h2])
  unfold walkNext
  dsimp only
  split
  · dsimp only; omega
  split
  · dsimp only; omega
  split
  · dsimp only; omega
  · dsimp only; omega

/-- The corridor walk keeps every passable cell passable. -/
theorem connectWalk_mono (w h : ℤ) :
    ∀ fuel (g : Grid) (c t q : Pos), Passable g q →
      Passable (connectWalk w h fuel g c t) q
  | 0, _, _, _, _, hq => hq
  | fuel + 1, g, c, t, q, hq => by
    rw [connectWalk]
    split
    · exact hq
    · refine connectWalk_mono w h fuel _ _ _ q ?_
      rw [carveIfInterior_passable]
      exact Or.inr hq

/-- The corridor walk only opens inner cells. -/
theorem connectWalk_opens (w h : ℤ) :
    ∀ fuel (g : Grid) (c t : Pos), opensInterior w h g →
      opensInterior w h (connectWalk w h fuel g c t)
  | 0, _, _, _, hg => hg
  | fuel + 1, g, c, t, hg => by
    rw [connectWalk]
    split
    · exact hg
    · exact connectWalk_opens w h fuel _ _ _ (carveIfInterior_opens w h _ hg)

/-- With enough fuel (the Manhattan distance, as at the call site), the
corridor walk connects its inner start to its inner target. -/
theorem connectWalk_reach (w h : ℤ) :
    ∀ fuel (g : Grid) (c t : Pos),
      interiorGuard w h c → interiorGuard w h t → Passable g c →
      (t.1 - c.1).natAbs + (t.2 - c.2).natAbs ≤ fuel →
      Reach (connectWalk w h fuel g c t) c t
  | 0, g, c, t, _, _, _, hd => by
    have hct : c = t := by
      obtain ⟨cx, cy⟩ := c
      obtain ⟨tx, ty⟩ := t
      dsimp only at hd
      rw [Prod.ext_iff]
      dsimp only
      omega
    subst hct
    exact Relation.ReflTransGen.refl
  | fuel + 1, g, c, t, hc, ht, hp, hd => by
    rw [connectWalk]
    by_cases hct : c = t
    · rw [if_pos hct]
      subst hct
      exact Relation.ReflTransGen.refl
    · rw [if_neg hct]
      have hint := walkNext_interior w h c t hct hc ht
      have hpass' : Passable (carveIfInterior w h g (walkNext c t)) (walkNext c t) := by
        rw [carveIfInterior_passable]
        exact Or.inl ⟨hint, rfl⟩
      have hih := connectWalk_reach w h fuel _ (walkNext c t) t hint ht hpass'
        (by have := walkNext_dist c t hct; omega)
      refine Relation.ReflTransGen.head ⟨?_, ?_, ?_⟩ hih
      · refine connectWalk_mono w h fuel _ _ _ c ?_
        rw [carveIfInterior_passable]
        exact Or.inr hp
      · exact connectWalk_mono w h fuel _ _ _ _ hpass'
      · exact walkNext_adj c t hct

/-- Every cell the corridor walk opens reaches the walk start in the
resulting grid. -/
theorem connectWalk_new (w h : ℤ) :
    ∀ fuel (g : Grid) (c t q : Pos),
      interiorGuard w h c → interiorGuard w h t → Passable g c →
      Passable (connectWalk w h fuel g c t) q →
      Passable g q ∨ Reach (connectWalk w h fuel g c t) q c
  | 0, _, _, _, _, _, _, _, hq => Or.inl hq
  | fuel + 1, g, c, t, q, hc, ht, hp, hq => by
    rw [connectWalk] at hq ⊢
    by_cases hct : c = t
    · rw [if_pos hct] at hq ⊢
      exact Or.inl hq
    · rw [if_neg hct] at hq ⊢
      have hint := walkNext_interior w h c t hct hc ht
      have hg' : Passable (carveIfInterior w h g (walkNext c t)) (walkNext c t) := by
        rw [carveIfInterior_passable]
        exact Or.inl ⟨hint, rfl⟩
      have hgc : Passable (carveIfInterior w h g (walkNext c t)) c := by
        rw [carveIfInterior_passable]
        exact Or.inr hp
      have hstep : MStep (connectWalk w h fuel (carveIfInterior w h g (walkNext c t))
          (walkNext c t) t) (walkNext c t) c :=
        ⟨connectWalk_mono w h fuel _ _ _ _ hg',
          connectWalk_mono w h fuel _ _ _ _ hgc,
          adjacent_symm (walkNext_adj c t hct)⟩
      rcases connectWalk_new w h fuel _ (walkNext c t) t q hint ht hg' hq with hq' | hr
      · rw [carveIfInterior_passable] at hq'
        rcases hq' with ⟨_, rfl⟩ | hq''
        · exact Or.inr (Relation.ReflTransGen.single hstep)
        · exact Or.inl hq''
      · exact Or.inr (Relation.ReflTransGen.tail hr hstep)

/- ### C1: connecting the discovered areas -/

/-- Folding the pair comparison from a Some start yields the start or a
list member. -/
theorem betterPair_aux :
    ∀ (l : List (Pos × Pos)) (b : Pos × Pos),
      l.foldl betterPair (some b) = some b ∨
        ∃ pq ∈ l, l.foldl betterPair (some b) = some pq
  | [], _ => Or.inl rfl
  | x :: l, b => by
    rw [List.foldl_cons]
    have hfx : betterPair (some b) x = some b ∨ betterPair (some b) x = some x := by
      by_cases hlt : manhattan x.1 x.2 < manhattan b.1 b.2
      · right
        show (if manhattan x.1 x.2 < manhattan b.1 b.2 then some x else some b) = some x
        rw [if_pos hlt]
      · left
        show (if manhattan x.1 x.2 < manhattan b.1 b.2 then some x else some b) = some b
        rw [if_neg hlt]
    rcases hfx with hb | hx
    · rw [hb]
      rcases betterPair_aux l b with h1 | ⟨pq, hpq, h2⟩
      · exact Or.inl h1
      · exact Or.inr ⟨pq, List.mem_cons_of_mem _ hpq, h2⟩
    · rw [hx]
      rcases betterPair_aux l x with h1 | ⟨pq, hpq, h2⟩
      · exact Or.inr ⟨x, List.mem_cons_self _ _, h1⟩
      · exact Or.inr ⟨pq, List.mem_cons_of_mem _ hpq, h2⟩

/-- The closest-pair fold of a nonempty pair list lands on a member. -/
theorem foldl_betterPair_some :
    ∀ (l : List (Pos × Pos)), l ≠ [] → ∃ pq ∈ l, l.foldl betterPair none = some pq
  | [], hne => absurd rfl hne
  | x :: l, _ => by
    rw [List.foldl_cons]
    show ∃ pq ∈ x :: l, l.foldl betterPair (some x) = some pq
    rcases betterPair_aux l x with h1 | ⟨pq, hpq, h2⟩
    · exact ⟨x, List.mem_cons_self _ _, h1⟩
    · exact ⟨pq, List.mem_cons_of_mem _ hpq, h2⟩

/-- The closest pair of two nonempty areas exists and lies in them. -/
theorem closestPair_mem (A B : List Pos) (hA : A ≠ []) (hB : B ≠ []) :
    ∃ p1 p2, closestPair A B = some (p1, p2) ∧ p1 ∈ A ∧ p2 ∈ B := by
  obtain ⟨a, A', rfl⟩ := List.exists_cons_of_ne_nil hA
  obtain ⟨b, B', rfl⟩ := List.exists_cons_of_ne_nil hB
  have hmem : (a, b) ∈ ((a :: A').flatMap fun x => (b :: B').map fun y => (x, y)) := by
    rw [List.mem_flatMap]
    exact ⟨a, List.mem_cons_self _ _, List.mem_map.mpr ⟨b, List.mem_cons_self _ _, rfl⟩⟩
  obtain ⟨pq, hpq, hfold⟩ := foldl_betterPair_some _ (List.ne_nil_of_mem hmem)
  rw [List.mem_flatMap] at hpq
  obtain ⟨x, hx, hpq'⟩ := hpq
  rw [List.mem_map] at hpq'
  obtain ⟨y, hy, rfl⟩ := hpq'
  exact ⟨x, y, hfold, hx, hy⟩

/-- Connecting areas keeps every passable cell passable. -/
theorem connectAreas_mono (w h : ℤ) :
    ∀ (L : List (List Pos)) (g : Grid) (q : Pos), Passable g q →
      Passable (connectAreas w h g L) q
  | [], _, _, hq => hq
  | [_], _, _, hq => hq
  | A :: B :: rest, g, q, hq => by
    rw [connectAreas]
    rcases hcp : closestPair A B with _ | ⟨p1, p2⟩
    · exact connectAreas_mono w h (B :: rest) g q hq
    · exact connectAreas_mono w h (B :: rest) _ q
        (connectWalk_mono w h _ g p1 p2 q hq)

/-- Connecting areas only opens inner cells. -/
theorem connectAreas_opens (w h : ℤ) :
    ∀ (L : List (List Pos)) (g : Grid), opensInterior w h g →
      opensInterior w h (connectAreas w h g L)
  | [], _, hg => hg
  | [_], _, hg => hg
  | A :: B :: rest, g, hg => by
    rw [connectAreas]
    rcases hcp : closestPair A B with _ | ⟨p1, p2⟩
    · exact connectAreas_opens w h (B :: rest) g hg
    · exact connectAreas_opens w h (B :: rest) _ (connectWalk_opens w h _ g p1 p2 hg)

/-- After the repair pass, consecutive areas are bridged in the final
grid. -/
theorem connectAreas_bridge (w h : ℤ) :
    ∀ (L : List (List Pos)) (g : Grid), opensInterior w h g →
      (∀ A ∈ L, A ≠ [] ∧ ∀ c ∈ A, Passable g c) →
      List.Chain' (fun A B => ∃ p1, p1 ∈ A ∧ ∃ p2, p2 ∈ B ∧
        Reach (connectAreas w h g L) p1 p2) L
  | [], _, _, _ => List.chain'_nil
  | [_], _, _, _ => List.chain'_singleton _
  | A :: B :: rest, g, hg, hL => by
    obtain ⟨hAne, hApass⟩ := hL A (List.mem_cons_self _ _)
    obtain ⟨hBne, hBpass⟩ := hL B (List.mem_cons_of_mem _ (List.mem_cons_self _ _))
    obtain ⟨p1, p2, hcp, hp1, hp2⟩ := closestPair_mem A B hAne hBne
    rw [List.chain'_cons]
    constructor
    · refine ⟨p1, hp1, p2, hp2, ?_⟩
      rw [connectAreas, hcp]
      refine reach_mono (fun q hq => connectAreas_mono w h (B :: rest) _ q hq) ?_
      exact connectWalk_reach w h _ g p1 p2 (hg _ (hApass p1 hp1))
        (hg _ (hBpass p2 hp2)) (hApass p1 hp1) le_rfl
    · have hL' : ∀ C ∈ B :: rest, C ≠ [] ∧ ∀ c ∈ C,
          Passable (connectWalk w h ((p2.1 - p1.1).natAbs + (p2.2 - p1.2).natAbs)
            g p1 p2) c := by
        intro C hC
        obtain ⟨hCne, hCpass⟩ := hL C (List.mem_cons_of_mem _ hC)
        exact ⟨hCne, fun c hc => connectWalk_mono w h _ g p1 p2 c (hCpass c hc)⟩
      have hrec := connectAreas_bridge w h (B :: rest) _
        (connectWalk_opens w h _ g p1 p2 hg) hL'
      rw [connectAreas, hcp]
      exact hrec

/-- Every cell passable after the repair pass was already passable or
reaches a cell of one of the areas in the final grid. -/
theorem connectAreas_new (w h : ℤ) :
    ∀ (L : List (List Pos)) (g : Grid), opensInterior w h g →
      (∀ A ∈ L, A ≠ [] ∧ ∀ c ∈ A, Passable g c) →
      ∀ q, Passable (connectAreas w h g L) q →
        Passable g q ∨ ∃ A ∈ L, ∃ a ∈ A, Reach (connectAreas w h g L) q a
  | [], _, _, _, _, hq => Or.inl hq
  | [_], _, _, _, _, hq => Or.inl hq
  | A :: B :: rest, g, hg, hL, q, hq => by
    obtain ⟨hAne, hApass⟩ := hL A (List.mem_cons_self _ _)
    obtain ⟨hBne, hBpass⟩ := hL B (List.mem_cons_of_mem _ (List.mem_cons_self _ _))
    obtain ⟨p1, p2, hcp, hp1, hp2⟩ := closestPair_mem A B hAne hBne
    rw [connectAreas, hcp] at hq ⊢
    have hL' : ∀ C ∈ B :: rest, C ≠ [] ∧ ∀ c ∈ C,
        Passable (connectWalk w h ((p2.1 - p1.1).natAbs + (p2.2 - p1.2).natAbs)
          g p1 p2) c := by
      intro C hC
      obtain ⟨hCne, hCpass⟩ := hL C (List.mem_cons_of_mem _ hC)
      exact ⟨hCne, fun c hc => connectWalk_mono w h _ g p1 p2 c (hCpass c hc)⟩
    rcases connectAreas_new w h (B :: rest) _
        (connectWalk_opens w h _ g p1 p2 hg) hL' q hq with h1 | ⟨C, hC, a, ha, hr⟩
    · rcases connectWalk_new w h _ g p1 p2 q (hg _ (hApass p1 hp1))
          (hg _ (hBpass p2 hp2)) (hApass p1 hp1) h1 with h2 | hr2
      · exact Or.inl h2
      · refine Or.inr ⟨A, List.mem_cons_self _ _, p1, hp1, ?_⟩
        exact reach_mono (fun x hx => connectAreas_mono w h (B :: rest) _ x hx) hr2
    · exact Or.inr ⟨C, List.mem_cons_of_mem _ hC, a, ha, hr⟩

/- ### C1: terrain pass and maze-mode connectivity -/

/-- The terrain table never produces a Wall. -/
theorem terrainChar_ne_wall (q : ℚ) : terrainChar q ≠ '#' := by
  unfold terrainChar
  split
  · decide
  split
  · decide
  split
  · decide
  split
  · decide
  split
  · decide
  split
  · decide
  split
  · decide
  split
  · decide
  · decide

/-- The terrain pass preserves passability cell by cell. -/
theorem applyTerrain_passable (w h : ℤ) (r : ℤ → ℤ → ℚ) (g : Grid) (q : Pos) :
    Passable (applyTerrain w h r g) q ↔ Passable g q := by
  unfold applyTerrain Passable
  dsimp only
  split
  · next hcond =>
    constructor
    · intro _
      rw [hcond.2.2.2.2]
      decide
    · intro _
      exact terrainChar_ne_wall _
  · exact Iff.rfl

/-- Maze mode of the generator produces a connected dungeon: any two
passable cells of the result are mutually reachable, for every shuffle
oracle over the direction list, every carve fuel, and every nonzero scan
fuel. -/
theorem maze_mode_connected (w h : ℤ) (hw : 10 ≤ w) (hh : 8 ≤ h)
    (shuffle : ℕ → List (ℤ × ℤ)) (hsh : ∀ k, ∀ d ∈ shuffle k, d ∈ mazeDirs)
    (rand : ℕ → ℕ) (carveFuel scanFuel : ℕ) (hsf : 1 ≤ scanFuel)
    (terrain : ℤ → ℤ → ℚ) :
    ∀ p q,
      Passable (generate_maze w h false shuffle rand carveFuel scanFuel terrain) p →
      Passable (generate_maze w h false shuffle rand carveFuel scanFuel terrain) q →
      Reach (generate_maze w h false shuffle rand carveFuel scanFuel terrain) p q := by
  have hP0 : opensInterior w h (fun _ _ => '#') := fun p hp => absurd rfl hp
  have hP1 := createMainPath_opens w h hw hh _ hP0
  have hP2 : opensInterior w h (carveFromStarts w h shuffle carveFuel (startPoints w h)
      (createMainPath w h (fun _ _ => '#'), 0)).1 :=
    carveFromStarts_opens w h shuffle hsh carveFuel (startPoints w h) _ 0
      (startPoints_interior w h hw hh) hP1
  set g2 := (carveFromStarts w h shuffle carveFuel (startPoints w h)
    (createMainPath w h (fun _ _ => '#'), 0)).1 with hg2def
  set L := (scanAreas g2 w h scanFuel (interiorCells w h) [] []).1 with hLdef
  have hAreas : ∀ A ∈ L, A ≠ [] ∧ ∀ c ∈ A, Passable g2 c := by
    intro A hA
    rcases scanAreas_areas_src g2 w h scanFuel (interiorCells w h) [] [] A hA with
      hacc | ⟨s, hs, hspass, rfl⟩
    · exact absurd hacc (List.not_mem_nil _)
    · have hb := interiorCells_bounds w h s hs
      constructor
      · exact List.ne_nil_of_mem (collectArea_seed g2 w h scanFuel [] s hsf hb hspass)
      · intro c hc
        exact (collectArea_spec g2 w h s scanFuel [] s
          (fun c hc => absurd hc (List.not_mem_nil _))
          (fun _ => Relation.ReflTransGen.refl) c hc).1
  have hInternal : ∀ A ∈ L, ∀ a b, a ∈ A → b ∈ A → Reach g2 a b := by
    intro A hA a b ha hb
    rcases scanAreas_areas_src g2 w h scanFuel (interiorCells w h) [] [] A hA with
      hacc | ⟨s, hs, hspass, rfl⟩
    · exact absurd hacc (List.not_mem_nil _)
    · have hspec := collectArea_spec g2 w h s scanFuel [] s
        (fun c hc => absurd hc (List.not_mem_nil _))
        (fun _ => Relation.ReflTransGen.refl)
      exact (reach_symm (hspec a ha).2).trans (hspec b hb).2
  have hCover : ∀ x, Passable g2 x → ∃ A ∈ L, x ∈ A := by
    intro x hx
    have hint := hP2 x hx
    have hmem := interiorCells_mem w h x hint
    have hbound := interiorCells_bounds w h x hmem
    have hv := scanAreas_covers g2 w h scanFuel hsf (interiorCells w h) [] [] x hmem
      hbound hx
    rcases scanAreas_visited_src g2 w h scanFuel (interiorCells w h) [] [] x hv with
      hnil | hex
    · exact absurd hnil (List.not_mem_nil _)
    · exact hex
  set g3 := connectAreas w h g2 L with hg3def
  have hBridge := connectAreas_bridge w h L g2 hP2 hAreas
  have hNew := connectAreas_new w h L g2 hP2 hAreas
  have hMono3 : ∀ x, Passable g2 x → Passable g3 x :=
    fun x hx => connectAreas_mono w h L g2 x hx
  have hToArea : ∀ x, Passable g3 x → ∃ A ∈ L, ∃ a ∈ A, Reach g3 x a := by
    intro x hx
    rcases hNew x hx with h2 | hex
    · obtain ⟨A, hA, hxA⟩ := hCover x h2
      exact ⟨A, hA, x, hxA, Relation.ReflTransGen.refl⟩
    · exact hex
  have hAll : ∀ x y, Passable g3 x → Passable g3 y → Reach g3 x y := by
    intro x y hx hy
    obtain ⟨A, hA, a, haA, hxa⟩ := hToArea x hx
    obtain ⟨B, hB, b, hbB, hyb⟩ := hToArea y hy
    have hchain := chainReach (fun p A => p ∈ A) (Reach g3)
      (fun _ _ _ h1 h2 => h1.trans h2) (fun _ _ h1 => reach_symm h1) L hBridge
      (fun A hA a b ha hb => reach_mono hMono3 (hInternal A hA a b ha hb))
      A hA B hB a b haA hbB
    exact (hxa.trans hchain).trans (reach_symm hyb)
  have hgeq : generate_maze w h false shuffle rand carveFuel scanFuel terrain =
      applyTerrain w h terrain g3 := rfl
  intro p q hp hq
  rw [hgeq] at hp hq ⊢
  have hp' := (applyTerrain_passable w h terrain g3 p).mp hp
  have hq' := (applyTerrain_passable w h terrain g3 q).mp hq
  exact reach_mono (fun x hx => (applyTerrain_passable w h terrain g3 x).mpr hx)
    (hAll p q hp' hq')

/- ### C1: room placement -/

/-- Room interiors lie inside the footprint. -/
theorem inRoomInterior_foot (r : Room) (p : Pos) (hp : inRoomInterior r p) :
    inRoomFoot r p := by
  obtain ⟨⟨x1, y1⟩, x2, y2⟩ := r
  obtain ⟨px, py⟩ := p
  unfold inRoomInterior at hp
  unfold inRoomFoot
  dsimp only at *
  omega

/-- create_room leaves cells outside the footprint alone. -/
theorem create_room_outside (w h : ℤ) (g : Grid) (r : Room) (p : Pos)
    (hv : ValidRoom w h r) (hout : ¬ inRoomFoot r p) :
    create_room w h g r p.2 p.1 = g p.2 p.1 := by
  obtain ⟨⟨x1, y1⟩, x2, y2⟩ := r
  obtain ⟨px, py⟩ := p
  unfold ValidRoom at hv
  unfold inRoomFoot at hout
  unfold create_room
  dsimp only at *
  have hn1 : ¬ (0 < x1 ∧ x1 < w - 1 ∧ (px = x1 ∨ px = x2 - 1) ∧ y1 ≤ py ∧ py < y2) := by
    rintro ⟨_, _, hx, hy1, hy2⟩
    rcases hx with rfl | rfl <;> exact hout ⟨by omega, by omega, by omega, by omega⟩
  have hn2 : ¬ (0 < y1 ∧ y1 < h - 1 ∧ (py = y1 ∨ py = y2 - 1) ∧ x1 ≤ px ∧ px < x2) := by
    rintro ⟨_, _, hy, hx1, hx2⟩
    rcases hy with rfl | rfl <;> exact hout ⟨by omega, by omega, by omega, by omega⟩
  have hn3 : ¬ (x1 ≤ px ∧ px < x2 ∧ y1 ≤ py ∧ py < y2 ∧ 0 < px ∧ px < w - 1 ∧
      0 < py ∧ py < h - 1) := by
    rintro ⟨h1, h2, h3, h4, _⟩
    exact hout ⟨h1, h2, h3, h4⟩
  rw [if_neg hn1, if_neg hn2, if_neg hn3]

/-- create_room opens exactly the strict interior of the footprint. -/
theorem create_room_interior (w h : ℤ) (g : Grid) (r : Room) (p : Pos)
    (hv : ValidRoom w h r) (hin : inRoomInterior r p) :
    create_room w h g r p.2 p.1 = '.' := by
  obtain ⟨⟨x1, y1⟩, x2, y2⟩ := r
  obtain ⟨px, py⟩ := p
  unfold ValidRoom at hv
  unfold inRoomInterior at hin
  unfold create_room
  dsimp only at *
  rw [if_neg (by rintro ⟨_, _, hx, _, _⟩; rcases hx with rfl | rfl <;> omega),
    if_neg (by rintro ⟨_, _, hy, _, _⟩; rcases hy with rfl | rfl <;> omega),
    if_pos ⟨by omega, by omega, by omega, by omega, by omega, by omega, by omega,
      by omega⟩]

/-- create_room walls every footprint cell outside the strict interior. -/
theorem create_room_wall (w h : ℤ) (g : Grid) (r : Room) (p : Pos)
    (hv : ValidRoom w h r) (hfoot : inRoomFoot r p) (hni : ¬ inRoomInterior r p) :
    create_room w h g r p.2 p.1 = '#' := by
  obtain ⟨⟨x1, y1⟩, x2, y2⟩ := r
  obtain ⟨px, py⟩ := p
  unfold ValidRoom at hv
  unfold inRoomFoot at hfoot
  unfold inRoomInterior at hni
  unfold create_room
  dsimp only at *
  by_cases hpx : px = x1 ∨ px = x2 - 1
  · rw [if_pos ⟨by omega, by omega, hpx, by omega, by omega⟩]
  · have hpy : py = y1 ∨ py = y2 - 1 := by
      push_neg at hpx
      by_contra hc
      push_neg at hc
      exact hni ⟨by omega, by omega, by omega, by omega⟩
    rw [if_neg (by rintro ⟨_, _, hx, _, _⟩; exact hpx hx),
      if_pos ⟨by omega, by omega, hpy, by omega, by omega⟩]

/-- A failed overlap test separates the two footprints. -/
theorem overlap_false_disjoint (r1 r2 : Room) (hov : room_overlap r1 r2 = false) :
    ∀ x : Pos, ¬ (inRoomFoot r1 x ∧ inRoomFoot r2 x) := by
  obtain ⟨⟨x1, y1⟩, x2, y2⟩ := r1
  obtain ⟨⟨x3, y3⟩, x4, y4⟩ := r2
  unfold room_overlap at hov
  rw [decide_eq_false_iff_not, not_not] at hov
  rintro ⟨px, py⟩ ⟨hf1, hf2⟩
  unfold inRoomFoot at hf1 hf2
  dsimp only at *
  rcases hov with hd | hd | hd | hd <;> omega

/-- The placed-room count never shrinks. -/
theorem placeRooms_len (w h : ℤ) (rand : ℕ → ℕ) :
    ∀ fuel attempts k (rooms : List Room) (g : Grid),
      rooms.length ≤ (placeRooms w h rand fuel attempts k rooms g).1.length
  | 0, _, _, _, _ => le_rfl
  | fuel + 1, attempts, k, rooms, g => by
    rw [placeRooms]
    split
    · dsimp only
      split
      · exact placeRooms_len w h rand fuel _ _ rooms g
      · refine le_trans ?_ (placeRooms_len w h rand fuel _ _ _ _)
        rw [List.length_append]
        omega
    · exact le_rfl

/-- Room placement maintains validity, pairwise disjointness, and the
exact characterisation of passable cells as the union of the placed
interiors. -/
theorem placeRooms_inv (w h : ℤ) (hw : 10 ≤ w) (hh : 8 ≤ h) (rand : ℕ → ℕ) :
    ∀ fuel attempts k (rooms : List Room) (g : Grid),
      (∀ r ∈ rooms, ValidRoom w h r) →
      List.Pairwise (fun a b => ∀ x : Pos, ¬ (inRoomFoot a x ∧ inRoomFoot b x)) rooms →
      (∀ x : Pos, Passable g x ↔ ∃ r ∈ rooms, inRoomInterior r x) →
      (∀ r ∈ (placeRooms w h rand fuel attempts k rooms g).1, ValidRoom w h r) ∧
        List.Pairwise (fun a b => ∀ x : Pos, ¬ (inRoomFoot a x ∧ inRoomFoot b x))
          (placeRooms w h rand fuel attempts k rooms g).1 ∧
        (∀ x : Pos, Passable (placeRooms w h rand fuel attempts k rooms g).2 x ↔
          ∃ r ∈ (placeRooms w h rand fuel attempts k rooms g).1, inRoomInterior r x)
  | 0, _, _, rooms, g, hval, hdisj, hiff => ⟨hval, hdisj, hiff⟩
  | fuel + 1, attempts, k, rooms, g, hval, hdisj, hiff => by
    rw [placeRooms]
    split
    · dsimp only
      split
      · exact placeRooms_inv w h hw hh rand fuel _ _ rooms g hval hdisj hiff
      · next hov =>
        set R : Room :=
          ((1 + (rand (k + 2) : ℤ) % (w - (4 + (rand k : ℤ) % 5) - 1),
            1 + (rand (k + 3) : ℤ) % (h - (4 + (rand (k + 1) : ℤ) % 3) - 1)),
           (1 + (rand (k + 2) : ℤ) % (w - (4 + (rand k : ℤ) % 5) - 1) +
              (4 + (rand k : ℤ) % 5),
            1 + (rand (k + 3) : ℤ) % (h - (4 + (rand (k + 1) : ℤ) % 3) - 1) +
              (4 + (rand (k + 1) : ℤ) % 3))) with hRdef
        have hmod5 : (0 : ℤ) ≤ (rand k : ℤ) % 5 ∧ (rand k : ℤ) % 5 < 5 :=
          ⟨Int.emod_nonneg _ (by omega), Int.emod_lt_of_pos _ (by omega)⟩
        have hmod3 : (0 : ℤ) ≤ (rand (k + 1) : ℤ) % 3 ∧ (rand (k + 1) : ℤ) % 3 < 3 :=
          ⟨Int.emod_nonneg _ (by omega), Int.emod_lt_of_pos _ (by omega)⟩
        have hmodw : (0 : ℤ) ≤ (rand (k + 2) : ℤ) % (w - (4 + (rand k : ℤ) % 5) - 1) ∧
            (rand (k + 2) : ℤ) % (w - (4 + (rand k : ℤ) % 5) - 1) <
              w - (4 + (rand k : ℤ) % 5) - 1 :=
          ⟨Int.emod_nonneg _ (by omega), Int.emod_lt_of_pos _ (by omega)⟩
        have hmodh : (0 : ℤ) ≤ (rand (k + 3) : ℤ) % (h - (4 + (rand (k + 1) : ℤ) % 3) - 1) ∧
            (rand (k + 3) : ℤ) % (h - (4 + (rand (k + 1) : ℤ) % 3) - 1) <
              h - (4 + (rand (k + 1) : ℤ) % 3) - 1 :=
          ⟨Int.emod_nonneg _ (by omega), Int.emod_lt_of_pos _ (by omega)⟩
        have hvroom : ValidRoom w h R := by
          rw [hRdef]
          unfold ValidRoom
          dsimp only
          refine ⟨by omega, by omega, by omega, by omega, by omega, by omega⟩
        have hdnew : ∀ r ∈ rooms, ∀ x : Pos, ¬ (inRoomFoot r x ∧ inRoomFoot R x) := by
          intro r hr x hx
          have hfalse : room_overlap R r = false :=
            Bool.eq_false_iff.mpr (List.any_eq_false.mp (Bool.eq_false_iff.mpr hov) r hr)
          exact overlap_false_disjoint R r hfalse x ⟨hx.2, hx.1⟩
        refine placeRooms_inv w h hw hh rand fuel _ _ _ _ ?_ ?_ ?_
        · intro r hr
          rcases List.mem_append.mp hr with hr1 | hr2
          · exact hval r hr1
          · rw [List.mem_singleton] at hr2
            subst hr2
            exact hvroom
        · rw [List.pairwise_append]
          refine ⟨hdisj, List.pairwise_singleton _ _, ?_⟩
          intro a ha b hb
          rw [List.mem_singleton] at hb
          subst hb
          exact hdnew a ha
        · intro x
          by_cases hfoot : inRoomFoot R x
          · by_cases hint : inRoomInterior R x
            · constructor
              · intro _
                exact ⟨R, List.mem_append_right _ (List.mem_singleton.mpr rfl), hint⟩
              · intro _
                unfold Passable
                rw [create_room_interior w h g R x hvroom hint]
                decide
            · constructor
              · intro hpass
                unfold Passable at hpass
                rw [create_room_wall w h g R x hvroom hfoot hint] at hpass
                exact absurd rfl hpass
              · rintro ⟨r, hr, hrint⟩
                rcases List.mem_append.mp hr with hr1 | hr2
                · exact absurd ⟨inRoomInterior_foot r x hrint, hfoot⟩ (hdnew r hr1 x)
                · rw [List.mem_singleton] at hr2
                  subst hr2
                  exact absurd hrint hint
          · have hsame : Passable (create_room w h g R) x ↔ Passable g x := by
              unfold Passable
              rw [create_room_outside w h g R x hvroom hfoot]
            rw [hsame, hiff x]
            constructor
            · rintro ⟨r, hr, hrint⟩
              exact ⟨r, List.mem_append_left _ hr, hrint⟩
            · rintro ⟨r, hr, hrint⟩
              rcases List.mem_append.mp hr with hr1 | hr2
              · exact ⟨r, hr1, hrint⟩
              · rw [List.mem_singleton] at hr2
                subst hr2
                exact absurd (inRoomInterior_foot R x hrint) hfoot
    · exact ⟨hval, hdisj, hiff⟩

/- ### C1: room corridors and room-mode connectivity -/

/-- The centre of a valid room sits two cells inside its footprint. -/
theorem roomCenter_bounds (w h : ℤ) (r : Room) (hv : ValidRoom w h r) :
    r.1.1 + 2 ≤ (roomCenter r).1 ∧ (roomCenter r).1 ≤ r.2.1 - 2 ∧
      r.1.2 + 2 ≤ (roomCenter r).2 ∧ (roomCenter r).2 ≤ r.2.2 - 2 := by
  obtain ⟨⟨x1, y1⟩, x2, y2⟩ := r
  unfold ValidRoom at hv
  unfold roomCenter
  dsimp only at *
  refine ⟨by omega, by omega, by omega, by omega⟩

/-- The centre of a valid room is in its strict interior. -/
theorem roomCenter_in_interior (w h : ℤ) (r : Room) (hv : ValidRoom w h r) :
    inRoomInterior r (roomCenter r) := by
  have hb := roomCenter_bounds w h r hv
  obtain ⟨⟨x1, y1⟩, x2, y2⟩ := r
  unfold inRoomInterior
  dsimp only at *
  refine ⟨by omega, by omega, by omega, by omega⟩

/-- Both legs of the L-corridor between two valid rooms are fully
passable after connect_rooms. -/
theorem connect_rooms_pass (w h : ℤ) (g : Grid) (r1 r2 : Room)
    (hv1 : ValidRoom w h r1) (hv2 : ValidRoom w h r2) :
    (∀ i : ℤ, min (roomCenter r1).1 (roomCenter r2).1 ≤ i →
      i ≤ max (roomCenter r1).1 (roomCenter r2).1 →
      Passable (connect_rooms w h g r1 r2) (i, (roomCenter r1).2)) ∧
    (∀ j : ℤ, min (roomCenter r1).2 (roomCenter r2).2 ≤ j →
      j ≤ max (roomCenter r1).2 (roomCenter r2).2 →
      Passable (connect_rooms w h g r1 r2) ((roomCenter r2).1, j)) := by
  have hb1 := roomCenter_bounds w h r1 hv1
  have hb2 := roomCenter_bounds w h r2 hv2
  obtain ⟨⟨x1, y1⟩, x2, y2⟩ := r1
  obtain ⟨⟨x3, y3⟩, x4, y4⟩ := r2
  unfold ValidRoom at hv1 hv2
  unfold roomCenter at *
  unfold connect_rooms Passable
  dsimp only at *
  constructor
  · intro i h1 h2
    by_cases hA : (x3 + x4) / 2 > 0 ∧ (x3 + x4) / 2 < w - 1 ∧ i = (x3 + x4) / 2 ∧
        min ((y1 + y2) / 2) ((y3 + y4) / 2) ≤ (y1 + y2) / 2 ∧
        (y1 + y2) / 2 ≤ max ((y1 + y2) / 2) ((y3 + y4) / 2) ∧
        0 < (y1 + y2) / 2 ∧ (y1 + y2) / 2 < h - 1
    · rw [if_pos (by exact ⟨by omega, by omega, by omega, by omega, by omega, by omega,
        by omega⟩)]
      decide
    · rw [if_neg (by intro hc; exact hA ⟨by omega, by omega, by omega, by omega,
        by omega, by omega, by omega⟩)]
      rw [if_pos (by exact ⟨by omega, by omega, by omega, by omega, by omega, by omega,
        by omega⟩)]
      decide
  · intro j h1 h2
    rw [if_pos (by exact ⟨by omega, by omega, by omega, by omega, by omega, by omega,
      by omega⟩)]
    decide

/-- connect_rooms keeps every passable cell passable. -/
theorem connect_rooms_mono (w h : ℤ) (g : Grid) (r1 r2 : Room) (q : Pos)
    (hq : Passable g q) : Passable (connect_rooms w h g r1 r2) q := by
  unfold connect_rooms Passable at *
  dsimp only
  split
  · decide
  split
  · decide
  · exact hq

/-- Every cell connect_rooms opens reaches the centre of the second room
in the connected grid. -/
theorem connect_rooms_new (w h : ℤ) (g : Grid) (r1 r2 : Room)
    (hv1 : ValidRoom w h r1) (hv2 : ValidRoom w h r2) :
    ∀ q, Passable (connect_rooms w h g r1 r2) q →
      Passable g q ∨ Reach (connect_rooms w h g r1 r2) q (roomCenter r2) := by
  have hpass := connect_rooms_pass w h g r1 r2 hv1 hv2
  intro q hq
  obtain ⟨qx, qy⟩ := q
  by_cases hA : qx = (roomCenter r2).1 ∧
      min (roomCenter r1).2 (roomCenter r2).2 ≤ qy ∧
      qy ≤ max (roomCenter r1).2 (roomCenter r2).2
  · right
    obtain ⟨rfl, hA2, hA3⟩ := hA
    have hcol : Reach (connect_rooms w h g r1 r2) ((roomCenter r2).1, qy)
        ((roomCenter r2).1, (roomCenter r2).2) :=
      reach_col _ _ qy (roomCenter r2).2 (fun j hj1 hj2 => hpass.2 j (by omega) (by omega))
    exact hcol
  · by_cases hB : qy = (roomCenter r1).2 ∧
        min (roomCenter r1).1 (roomCenter r2).1 ≤ qx ∧
        qx ≤ max (roomCenter r1).1 (roomCenter r2).1
    · right
      obtain ⟨rfl, hB2, hB3⟩ := hB
      have hrow : Reach (connect_rooms w h g r1 r2) (qx, (roomCenter r1).2)
          ((roomCenter r2).1, (roomCenter r1).2) :=
        reach_row _ _ qx (roomCenter r2).1
          (fun i hi1 hi2 => hpass.1 i (by omega) (by omega))
      have hcol : Reach (connect_rooms w h g r1 r2)
          ((roomCenter r2).1, (roomCenter r1).2)
          ((roomCenter r2).1, (roomCenter r2).2) :=
        reach_col _ _ (roomCenter r1).2 (roomCenter r2).2
          (fun j hj1 hj2 => hpass.2 j (by omega) (by omega))
      exact hrow.trans hcol
    · left
      have hb1 := roomCenter_bounds w h r1 hv1
      have hb2 := roomCenter_bounds w h r2 hv2
      obtain ⟨⟨x1, y1⟩, x2, y2⟩ := r1
      obtain ⟨⟨x3, y3⟩, x4, y4⟩ := r2
      unfold roomCenter at hA hB
      unfold connect_rooms Passable at hq
      dsimp only at hq hA hB
      rw [if_neg (by
          rintro ⟨h1, h2, h3, h4, h5, h6, h7⟩
          exact hA ⟨by omega, by omega, by omega⟩),
        if_neg (by
          rintro ⟨h1, h2, h3, h4, h5, h6, h7⟩
          exact hB ⟨by omega, by omega, by omega⟩)] at hq
      exact hq

/-- The corridor chain keeps every passable cell passable. -/
theorem connectRoomsChain_mono (w h : ℤ) :
    ∀ (rooms : List Room) (g : Grid) (q : Pos), Passable g q →
      Passable (connectRoomsChain w h g rooms) q
  | [], _, _, hq => hq
  | [_], _, _, hq => hq
  | r1 :: r2 :: rest, g, q, hq => by
    rw [connectRoomsChain]
    exact connectRoomsChain_mono w h (r2 :: rest) _ q
      (connect_rooms_mono w h g r1 r2 q hq)

/-- After the corridor chain, consecutive room centres are connected in
the final grid. -/
theorem connectRoomsChain_bridge (w h : ℤ) :
    ∀ (rooms : List Room) (g : Grid), (∀ r ∈ rooms, ValidRoom w h r) →
      List.Chain' (fun a b => Reach (connectRoomsChain w h g rooms)
        (roomCenter a) (roomCenter b)) rooms
  | [], _, _ => List.chain'_nil
  | [_], _, _ => List.chain'_singleton _
  | r1 :: r2 :: rest, g, hv => by
    have hv1 := hv r1 (List.mem_cons_self _ _)
    have hv2 := hv r2 (List.mem_cons_of_mem _ (List.mem_cons_self _ _))
    have hpass := connect_rooms_pass w h g r1 r2 hv1 hv2
    rw [List.chain'_cons]
    constructor
    · rw [connectRoomsChain]
      refine reach_mono
        (fun x hx => connectRoomsChain_mono w h (r2 :: rest) _ x hx) ?_
      have hrow : Reach (connect_rooms w h g r1 r2)
          ((roomCenter r1).1, (roomCenter r1).2)
          ((roomCenter r2).1, (roomCenter r1).2) :=
        reach_row _ _ (roomCenter r1).1 (roomCenter r2).1
          (fun i hi1 hi2 => hpass.1 i (by omega) (by omega))
      have hcol : Reach (connect_rooms w h g r1 r2)
          ((roomCenter r2).1, (roomCenter r1).2)
          ((roomCenter r2).1, (roomCenter r2).2) :=
        reach_col _ _ (roomCenter r1).2 (roomCenter r2).2
          (fun j hj1 hj2 => hpass.2 j (by omega) (by omega))
      exact hrow.trans hcol
    · have hrec := connectRoomsChain_bridge w h (r2 :: rest) (connect_rooms w h g r1 r2)
        (fun r hr => hv r (List.mem_cons_of_mem _ hr))
      rw [connectRoomsChain]
      exact hrec

/-- Every cell passable after the corridor chain was already passable or
reaches a room centre in the final grid. -/
theorem connectRoomsChain_new (w h : ℤ) :
    ∀ (rooms : List Room) (g : Grid), (∀ r ∈ rooms, ValidRoom w h r) →
      ∀ q, Passable (connectRoomsChain w h g rooms) q →
        Passable g q ∨ ∃ r ∈ rooms,
          Reach (connectRoomsChain w h g rooms) q (roomCenter r)
  | [], _, _, _, hq => Or.inl hq
  | [_], _, _, _, hq => Or.inl hq
  | r1 :: r2 :: rest, g, hv, q, hq => by
    have hv1 := hv r1 (List.mem_cons_self _ _)
    have hv2 := hv r2 (List.mem_cons_of_mem _ (List.mem_cons_self _ _))
    rw [connectRoomsChain] at hq ⊢
    rcases connectRoomsChain_new w h (r2 :: rest) _
        (fun r hr => hv r (List.mem_cons_of_mem _ hr)) q hq with h1 | ⟨r, hr, hreach⟩
    · rcases connect_rooms_new w h g r1 r2 hv1 hv2 q h1 with h2 | hr2
      · exact Or.inl h2
      · refine Or.inr ⟨r2, List.mem_cons_of_mem _ (List.mem_cons_self _ _), ?_⟩
        exact reach_mono (fun x hx => connectRoomsChain_mono w h (r2 :: rest) _ x hx) hr2
    · exact Or.inr ⟨r, List.mem_cons_of_mem _ hr, hreach⟩

/-- The interior of a room whose cells are all passable is internally
connected. -/
theorem roomInterior_reach (g : Grid) (r : Room)
    (hopen : ∀ x, inRoomInterior r x → Passable g x) (a b : Pos)
    (ha : inRoomInterior r a) (hb : inRoomInterior r b) : Reach g a b := by
  obtain ⟨⟨x1, y1⟩, x2, y2⟩ := r
  unfold inRoomInterior at ha hb hopen
  dsimp only at ha hb hopen
  refine reach_rect g (x1 + 1) (x2 - 2) (y1 + 1) (y2 - 2) ?_ a b
    (by omega) (by omega) (by omega) (by omega)
    (by omega) (by omega) (by omega) (by omega)
  intro p h1 h2 h3 h4
  exact hopen p ⟨by omega, by omega, by omega, by omega⟩

/-- Room mode of the generator produces a connected dungeon: any two
passable cells of the result are mutually reachable, for every randint
oracle. -/
theorem room_mode_connected (w h : ℤ) (hw : 10 ≤ w) (hh : 8 ≤ h)
    (shuffle : ℕ → List (ℤ × ℤ)) (rand : ℕ → ℕ) (carveFuel scanFuel : ℕ)
    (terrain : ℤ → ℤ → ℚ) :
    ∀ p q,
      Passable (generate_maze w h true shuffle rand carveFuel scanFuel terrain) p →
      Passable (generate_maze w h true shuffle rand carveFuel scanFuel terrain) q →
      Reach (generate_maze w h true shuffle rand carveFuel scanFuel terrain) p q := by
  have hbase : ∀ x : Pos, Passable (fun _ _ => '#' : Grid) x ↔
      ∃ r ∈ ([] : List Room), inRoomInterior r x := by
    intro x
    constructor
    · intro hx
      exact absurd rfl hx
    · rintro ⟨r, hr, _⟩
      exact absurd hr (List.not_mem_nil _)
  obtain ⟨hvalid, hdisj, hiff⟩ := placeRooms_inv w h hw hh rand 100 0 0 []
    (fun _ _ => '#') (fun r hr => absurd hr (List.not_mem_nil _)) List.Pairwise.nil hbase
  set rooms := (placeRooms w h rand 100 0 0 [] (fun _ _ => '#')).1 with hroomsdef
  set g1 := (placeRooms w h rand 100 0 0 [] (fun _ _ => '#')).2 with hg1def
  set g2 := connectRoomsChain w h g1 rooms with hg2def
  have hIntOpen : ∀ r ∈ rooms, ∀ x, inRoomInterior r x → Passable g1 x :=
    fun r hr x hx => (hiff x).mpr ⟨r, hr, hx⟩
  have hMono2 : ∀ x, Passable g1 x → Passable g2 x :=
    fun x hx => connectRoomsChain_mono w h rooms g1 x hx
  have hBridge := connectRoomsChain_bridge w h rooms g1 hvalid
  have hNew := connectRoomsChain_new w h rooms g1 hvalid
  have hToCenter : ∀ x, Passable g2 x → ∃ r ∈ rooms, Reach g2 x (roomCenter r) := by
    intro x hx
    rcases hNew x hx with h1 | hex
    · obtain ⟨r, hr, hrint⟩ := (hiff x).mp h1
      refine ⟨r, hr, ?_⟩
      exact roomInterior_reach g2 r (fun y hy => hMono2 y (hIntOpen r hr y hy)) x
        (roomCenter r) hrint (roomCenter_in_interior w h r (hvalid r hr))
    · exact hex
  have hCenters : ∀ r ∈ rooms, ∀ r' ∈ rooms, Reach g2 (roomCenter r) (roomCenter r') := by
    intro r hr r' hr'
    have hchain2 : List.Chain' (fun a b => ∃ p1, p1 = roomCenter a ∧ ∃ p2,
        p2 = roomCenter b ∧ Reach g2 p1 p2) rooms := by
      refine List.Chain'.imp ?_ hBridge
      intro a b hab
      exact ⟨roomCenter a, rfl, roomCenter b, rfl, hab⟩
    exact chainReach (fun p r => p = roomCenter r) (Reach g2)
      (fun _ _ _ h1 h2 => h1.trans h2) (fun _ _ h1 => reach_symm h1) rooms hchain2
      (fun A hA a b ha hb => by rw [ha, hb]; exact Relation.ReflTransGen.refl) r hr r' hr'
      (roomCenter r) (roomCenter r') rfl rfl
  have hgeq : generate_maze w h true shuffle rand carveFuel scanFuel terrain =
      applyTerrain w h terrain g2 := rfl
  intro p q hp hq
  rw [hgeq] at hp hq ⊢
  have hp' := (applyTerrain_passable w h terrain g2 p).mp hp
  have hq' := (applyTerrain_passable w h terrain g2 q).mp hq
  obtain ⟨r, hr, hrp⟩ := hToCenter p hp'
  obtain ⟨r', hr', hrq⟩ := hToCenter q hq'
  refine reach_mono (fun x hx => (applyTerrain_passable w h terrain g2 x).mpr hx) ?_
  exact (hrp.trans (hCenters r hr r' hr')).trans (reach_symm hrq)

/-- C1: every dungeon the generator produces — maze mode, where the
flood-fill connectivity repair runs after carving by construction of the
pipeline, or room mode — has every non-Wall cell reachable from every
other non-Wall cell by 4-directional traversal.  The map is at least
10 × 8 (below that the room-placement randint bounds of the source are
invalid), the shuffle oracle draws permutations of the carve direction
list (any list over those directions suffices), and the flood-fill
embedding has at least one unit of fuel: the source recursions are
unbounded, and the statement holds for every carve fuel and every
nonzero scan fuel. -/
theorem C1_generated_dungeon_connected (w h : ℤ) (hw : 10 ≤ w) (hh : 8 ≤ h)
    (use_rooms : Bool) (shuffle : ℕ → List (ℤ × ℤ))
    (hsh : ∀ k, ∀ d ∈ shuffle k, d ∈ mazeDirs)
    (rand : ℕ → ℕ) (carveFuel scanFuel : ℕ) (hsf : 1 ≤ scanFuel)
    (terrain : ℤ → ℤ → ℚ) (p q : Pos)
    (hp : Passable (generate_maze w h use_rooms shuffle rand carveFuel scanFuel terrain) p)
    (hq : Passable (generate_maze w h use_rooms shuffle rand carveFuel scanFuel terrain) q) :
    Reach (generate_maze w h use_rooms shuffle rand carveFuel scanFuel terrain) p q := by
  cases use_rooms
  · exact maze_mode_connected w h hw hh shuffle hsh rand carveFuel scanFuel hsf terrain
      p q hp hq
  · exact room_mode_connected w h hw hh shuffle rand carveFuel scanFuel terrain p q hp hq

/-- Witness for C1: a 10 × 8 room-mode dungeon with the all-zero oracles
places one room with interior cells (2,2) and (3,3); both are passable
and the theorem connects them. -/
theorem C1_witness :
    Reach (generate_maze 10 8 true (fun _ => mazeDirs) (fun _ => 0) 0 1 (fun _ _ => 0))
      (2, 2) (3, 3) :=
  C1_generated_dungeon_connected 10 8 (by norm_num) (by norm_num) true
    (fun _ => mazeDirs) (fun _ _ hd => hd) (fun _ => 0) 0 1 (by norm_num)
    (fun _ _ => 0) (2, 2) (3, 3)
    ((applyTerrain_passable 10 8 (fun _ _ => 0)
      (connectRoomsChain 10 8 (placeRooms 10 8 (fun _ => 0) 100 0 0 []
        (fun _ _ => '#')).2 (placeRooms 10 8 (fun _ => 0) 100 0 0 []
        (fun _ _ => '#')).1) (2, 2)).mpr (by decide))
    ((applyTerrain_passable 10 8 (fun _ _ => 0)
      (connectRoomsChain 10 8 (placeRooms 10 8 (fun _ => 0) 100 0 0 []
        (fun _ _ => '#')).2 (placeRooms 10 8 (fun _ => 0) 100 0 0 []
        (fun _ _ => '#')).1) (3, 3)).mpr (by decide))

end Cybermang
